import Mathlib

/-!
# Validator channel and broadcast client

A shallow embedding of

* `packages/arb-validator/channel/channelValidator.go`
  (`NewChannelValidator`, `topOffDeposit`, the three unanimous-assertion
  operations), and
* `packages/arb-util/broadcastclient/broadcastclient.go`
  (`connect`, `startBackgroundReader`, `RetryConnect`, `Close`).

External collaborators (the anchoring ledger, the transport, the JSON
decoder, the owner that calls `Close`) are explicit parameters or inputs,
so every statement quantifies over all of their behaviours.
-/

set_option autoImplicit false

namespace Arbitrum

/-! ## Go values shared by both packages -/

/-- Go error values, as built by `errors.New` and by `Wrap` of `pkg/errors`. -/
inductive GoError where
  | new (msg : String)
  | wrap (cause : GoError) (msg : String)
  deriving DecidableEq, Repr

/-- How a Go function body ends: it returns a value, or it panics
(nil dereference). -/
inductive Outcome (α : Type) where
  | returned (v : α)
  | panicked
  deriving DecidableEq, Repr

/-- The type `common.Address`: a 20-byte array, bytes as naturals below 256. -/
abbrev Address := List Nat

/-- A 32-byte hash (`[32]byte`, `common.Hash`), kept abstract. -/
abbrev Hash := Nat

/-- The type `*protocol.Assertion`, kept abstract. -/
abbrev Assertion := Nat

/-- The type `[][]byte` of collected signatures. -/
abbrev Signatures := List (List Nat)

/-! ## The anchoring ledger (`ethconnection.ArbChannel`) -/

/-- What a ledger read of type `(*big.Int, error)` hands back: the pointer
(`none` is the nil pointer) and the error (`none` is nil). -/
structure BigRead where
  val : Option Int
  err : Option GoError
  deriving DecidableEq, Repr

/-- What an assertion call of type `(*types.Receipt, error)` hands back;
receipts are identified by a number, `none` is the nil pointer. -/
structure CallResult where
  receipt : Option Nat
  err : Option GoError
  deriving DecidableEq, Repr

/-- The behaviour of the ledger binding used by the channel validator. The
binding is an external collaborator: each method is a parameter, so that
theorems hold for every ledger. `IncreaseDeposit` keeps only the error of
its `(tx, err)` result, which is all the caller looks at. The authorization
argument `MakeAuth(ctx)` of the writing calls is left out. -/
structure ArbChannel where
  CurrentDeposit : Address → BigRead
  EscrowRequired : BigRead
  IncreaseDeposit : Int → Option GoError
  FinalizedUnanimousAssert : Hash → Assertion → Signatures → CallResult
  PendingUnanimousAssert : Hash → Assertion → Nat → Signatures → CallResult
  ConfirmUnanimousAsserted : Hash → Assertion → CallResult

/-- The ledger calls a function issues, in order. -/
inductive LedgerCall where
  | CurrentDeposit (a : Address)
  | EscrowRequired
  | IncreaseDeposit (amount : Int)
  deriving DecidableEq, Repr

/-- The amounts of the `IncreaseDeposit` calls in a call log, in order. -/
def increaseCalls : List LedgerCall → List Int
  | [] => []
  | LedgerCall.IncreaseDeposit a :: cs => a :: increaseCalls cs
  | _ :: cs => increaseCalls cs

/-- The method `(*big.Int).Cmp`: the sign of `x - y`; `none` is the panic of
dereferencing a nil operand. -/
def bigCmp : Option Int → Option Int → Option Int
  | some a, some b => some (if a < b then -1 else if a = b then 0 else 1)
  | _, _ => none

/-- The expression `new(big.Int).Sub(x, y)`; `none` is the nil-dereference
panic. -/
def bigSub : Option Int → Option Int → Option Int
  | some a, some b => some (a - b)
  | _, _ => none

/-! ## `topOffDeposit` (channelValidator.go, lines 102-123) -/

/-- The method `ChannelValidator.topOffDeposit`. Returns the ledger calls
issued and how the body ended (`returned none` is `return nil`).

* line 108-111: read `CurrentDeposit`; a non-nil error is returned as is;
* line 112: read `EscrowRequired`; its error is assigned and not looked at;
* line 113-116: `current.Cmp(required) >= 0` returns nil;
* line 117-122: otherwise `IncreaseDeposit(required - current)`, an error
  being wrapped with "failed calling IncreaseDeposit". -/
def topOffDeposit (ch : ArbChannel) (addr : Address) :
    List LedgerCall × Outcome (Option GoError) :=
  let current := ch.CurrentDeposit addr
  match current.err with
  | some e => ([LedgerCall.CurrentDeposit addr], Outcome.returned (some e))
  | none =>
    let required := ch.EscrowRequired
    let reads := [LedgerCall.CurrentDeposit addr, LedgerCall.EscrowRequired]
    match bigCmp current.val required.val with
    | none => (reads, Outcome.panicked)
    | some c =>
      if c ≥ 0 then (reads, Outcome.returned none)
      else
        match bigSub required.val current.val with
        | none => (reads, Outcome.panicked)
        | some depToAdd =>
          match ch.IncreaseDeposit depToAdd with
          | some e =>
            (reads ++ [LedgerCall.IncreaseDeposit depToAdd],
              Outcome.returned (some (GoError.wrap e "failed calling IncreaseDeposit")))
          | none =>
            (reads ++ [LedgerCall.IncreaseDeposit depToAdd], Outcome.returned none)

/-! ## `NewChannelValidator` (channelValidator.go, lines 53-100) -/

/-- The struct `validatorInfo`; `indexNum` is a `uint16`. -/
structure validatorInfo where
  indexNum : Nat
  deriving DecidableEq, Repr

/-- A Go `map[common.Address]validatorInfo` as an association list with at
most one entry per key. -/
abbrev ValidatorMap := List (Address × validatorInfo)

/-- The statement `m[k] = v`: the entry for `k` is replaced or added. -/
def mapInsert (m : ValidatorMap) (k : Address) (v : validatorInfo) : ValidatorMap :=
  (k, v) :: m.filter (fun p => !decide (p.1 = k))

/-- The expression `m[k]` in its two-result form: `none` is "not found". -/
def mapLookup : ValidatorMap → Address → Option validatorInfo
  | [], _ => none
  | (k', v) :: m, k => if k = k' then some v else mapLookup m k

/-- Lines 78-79: `var address common.Address; copy(address[:], key.Value)`.
The first `min 20 (len value)` bytes come from the key, the rest stay zero. -/
def addressOfKey (value : List Nat) : Address :=
  value.take 20 ++ List.replicate (20 - value.length) 0

/-- Lines 76-81: the slice `keys` of addresses derived from `AssertKeys`. -/
def deriveKeys (assertKeys : List (List Nat)) : List Address :=
  assertKeys.map addressOfKey

/-- Lines 82-84: `for i, add := range keys { manMap[add] = validatorInfo{uint16(i)} }`,
started at index `i`; the conversion `uint16(i)` is `i % 65536`. -/
def fillMap : List Address → Nat → ValidatorMap → ValidatorMap
  | [], _, m => m
  | add :: rest, i, m => fillMap rest (i + 1) (mapInsert m add ⟨i % 65536⟩)

/-- What `NewChannelValidator` is given from outside: the results of
`ethconnection.NewArbChannel` and `ethvalidator.NewVMValidator`, the local
validator's address `val.Address()`, and `config.AssertKeys` (the `Value`
byte string of each key). -/
structure ConstructionEnv where
  NewArbChannel : Except GoError ArbChannel
  NewVMValidator : Option GoError
  localAddress : Address
  AssertKeys : List (List Nat)

/-- The struct `ChannelValidator`; the embedded `VMValidator` is represented
by the address it reports. -/
structure ChannelValidator where
  address : Address
  Validators : ValidatorMap
  arbChannel : ArbChannel

/-- The method `ValidatorCount`. -/
def ChannelValidator.ValidatorCount (val : ChannelValidator) : Nat :=
  val.Validators.length

/-- The constructor `NewChannelValidator`: the ledger calls issued and how
the body ended, as the Go pair `(validator, error)`. -/
def NewChannelValidator (env : ConstructionEnv) :
    List LedgerCall × Outcome (Option ChannelValidator × Option GoError) :=
  match env.NewArbChannel with
  | Except.error e => ([], Outcome.returned (none, some e))
  | Except.ok con =>
    match env.NewVMValidator with
    | some e => ([], Outcome.returned (none, some e))
    | none =>
      let manMap := fillMap (deriveKeys env.AssertKeys) 0 []
      match mapLookup manMap env.localAddress with
      | none =>
        ([], Outcome.returned
          (none, some (GoError.new "key is not a validator of chosen ArbChannel")))
      | some _ =>
        let chanVal : ChannelValidator := ⟨env.localAddress, manMap, con⟩
        match topOffDeposit chanVal.arbChannel chanVal.address with
        | (calls, Outcome.panicked) => (calls, Outcome.panicked)
        | (calls, Outcome.returned (some err)) =>
          (calls, Outcome.returned
            (none, some (GoError.wrap err "ChannelValidator failed to top off deposit")))
        | (calls, Outcome.returned none) =>
          (calls, Outcome.returned (some chanVal, none))

/-! ## The unanimous-assertion operations (channelValidator.go, lines 125-207)

Each operation makes two channels of capacity 1, starts one goroutine and
returns the channels. The goroutine is a straight-line program; it is run
one atomic action at a time so that several of them can be interleaved. -/

/-- A Go channel as seen by its sender: the values sent so far, the
capacity given to `make`, and whether `close` has been called. -/
structure Chan (α : Type) where
  sent : List α
  cap : Nat
  closed : Bool
  deriving DecidableEq, Repr

/-- The expression `make(chan T, cap)`. -/
def Chan.make {α : Type} (cap : Nat) : Chan α := ⟨[], cap, false⟩

/-- The statement `c <- v`, without help from a receiver: `none` when it
cannot complete (the buffer is full, or the channel is closed). -/
def Chan.send {α : Type} (c : Chan α) (v : α) : Option (Chan α) :=
  if c.closed then none
  else if c.sent.length < c.cap then some { c with sent := c.sent ++ [v] }
  else none

/-- The statement `close(c)`: `none` when the channel is already closed. -/
def Chan.close {α : Type} (c : Chan α) : Option (Chan α) :=
  if c.closed then none else some { c with closed := true }

/-- The atomic actions of an assertion goroutine, in the order they are
logged. -/
inductive Action where
  | lock
  | callStart
  | callReturn (res : CallResult)
  | sendErr (e : GoError)
  | sendReceipt (r : Option Nat)
  | unlock
  | closeErrChan
  | closeReceiptChan
  deriving DecidableEq, Repr

/-- Program counter of an assertion goroutine: the next action to take. -/
inductive Pc where
  | lock
  | call
  | await
  | deliver
  | unlock
  | closeErrChan
  | closeReceiptChan
  | done
  deriving DecidableEq, Repr

/-- One goroutine started by an assertion operation, with the two channels
the operation returned. `stage` is the message the error is wrapped with and
`ledger` is what the ledger call of this operation returns. -/
structure Goroutine where
  stage : String
  ledger : CallResult
  pc : Pc
  receiptChan : Chan (Option Nat)
  errChan : Chan GoError
  log : List Action
  deriving DecidableEq, Repr

/-- The common shape of lines 131-150, 160-180 and 188-206: make the two
channels and start the goroutine. -/
def spawnAssert (stage : String) (ledger : CallResult) : Goroutine :=
  ⟨stage, ledger, Pc.lock, Chan.make 1, Chan.make 1, []⟩

/-- The method `ChannelValidator.FinalizedUnanimousAssert`. -/
def FinalizedUnanimousAssert (val : ChannelValidator) (newInboxHash : Hash)
    (assertion : Assertion) (signatures : Signatures) : Goroutine :=
  spawnAssert "failed sending finalized unanimous assertion"
    (val.arbChannel.FinalizedUnanimousAssert newInboxHash assertion signatures)

/-- The method `ChannelValidator.PendingUnanimousAssert`. -/
def PendingUnanimousAssert (val : ChannelValidator) (newInboxHash : Hash)
    (assertion : Assertion) (sequenceNum : Nat) (signatures : Signatures) : Goroutine :=
  spawnAssert "failed proposing unanimous assertion"
    (val.arbChannel.PendingUnanimousAssert newInboxHash assertion sequenceNum signatures)

/-- The method `ChannelValidator.ConfirmUnanimousAsserted`. -/
def ConfirmUnanimousAsserted (val : ChannelValidator) (newInboxHash : Hash)
    (assertion : Assertion) : Goroutine :=
  spawnAssert "failed confirming unanimous assertion"
    (val.arbChannel.ConfirmUnanimousAsserted newInboxHash assertion)

/-- One atomic action of the goroutine body, the mutex being available:

* `val.Mutex.Lock()`;
* the ledger call is invoked; the ledger call returns;
* `if err != nil { errChan <- Wrap(err, stage) } else { receiptChan <- receipt }`;
* `val.Mutex.Unlock()`;
* the deferred `close(errChan)`, then the deferred `close(receiptChan)`
  (deferred calls run last-in first-out).

A send or close that cannot complete leaves the goroutine where it is. -/
def Goroutine.step (g : Goroutine) : Goroutine :=
  match g.pc with
  | Pc.lock => { g with pc := Pc.call, log := g.log ++ [Action.lock] }
  | Pc.call => { g with pc := Pc.await, log := g.log ++ [Action.callStart] }
  | Pc.await => { g with pc := Pc.deliver, log := g.log ++ [Action.callReturn g.ledger] }
  | Pc.deliver =>
    match g.ledger.err with
    | some err =>
      match g.errChan.send (GoError.wrap err g.stage) with
      | some c =>
        { g with errChan := c, pc := Pc.unlock,
                 log := g.log ++ [Action.sendErr (GoError.wrap err g.stage)] }
      | none => g
    | none =>
      match g.receiptChan.send g.ledger.receipt with
      | some c =>
        { g with receiptChan := c, pc := Pc.unlock,
                 log := g.log ++ [Action.sendReceipt g.ledger.receipt] }
      | none => g
  | Pc.unlock => { g with pc := Pc.closeErrChan, log := g.log ++ [Action.unlock] }
  | Pc.closeErrChan =>
    match g.errChan.close with
    | some c => { g with errChan := c, pc := Pc.closeReceiptChan,
                         log := g.log ++ [Action.closeErrChan] }
    | none => g
  | Pc.closeReceiptChan =>
    match g.receiptChan.close with
    | some c => { g with receiptChan := c, pc := Pc.done,
                         log := g.log ++ [Action.closeReceiptChan] }
    | none => g
  | Pc.done => g

/-- The goroutine after `n` of its actions. -/
def Goroutine.run (g : Goroutine) : Nat → Goroutine
  | 0 => g
  | n + 1 => (g.run n).step

/-- The goroutine holds the validator's mutex. -/
def Goroutine.holdsMutex (g : Goroutine) : Bool :=
  g.pc = Pc.call || g.pc = Pc.await || g.pc = Pc.deliver || g.pc = Pc.unlock

/-- The goroutine's ledger call has been invoked and has not returned. -/
def Goroutine.callInFlight (g : Goroutine) : Bool :=
  g.pc = Pc.await

/-- All assertion goroutines of one validator, with the validator's single
mutex. Goroutines are numbered; `threads i` is the `i`-th invocation. `trace`
is the common order of all actions taken so far, each with the number of the
goroutine that took it. -/
structure System where
  locked : Bool
  threads : Nat → Goroutine
  trace : List (Nat × Action)

/-- The actions goroutine `i` adds to the common trace by its next step:
what the step appends to the goroutine's own log. -/
def stepActions (i : Nat) (g : Goroutine) : List (Nat × Action) :=
  (g.step.log.drop g.log.length).map (fun a => (i, a))

/-- The scheduler lets goroutine `i` take its next action. `Lock` on a held
mutex does not proceed; `Unlock` frees the mutex. -/
def System.step (s : System) (i : Nat) : System :=
  let g := s.threads i
  match g.pc with
  | Pc.lock =>
    if s.locked then s
    else ⟨true, Function.update s.threads i g.step, s.trace ++ stepActions i g⟩
  | Pc.unlock => ⟨false, Function.update s.threads i g.step, s.trace ++ stepActions i g⟩
  | _ => ⟨s.locked, Function.update s.threads i g.step, s.trace ++ stepActions i g⟩

/-- The system after a schedule: a list of goroutine numbers, each taking
one action in turn. -/
def System.run (s : System) (schedule : List Nat) : System :=
  schedule.foldl System.step s

/-- The start: the mutex is free and no goroutine has taken an action. -/
def System.start (invocations : Nat → Goroutine) : System := ⟨false, invocations, []⟩

/-- The action is the invocation or the return of a ledger call. -/
def Action.isCall : Action → Bool
  | Action.callStart => true
  | Action.callReturn _ => true
  | _ => false

/-- One action of the common trace, read by an observer of the ledger. The
observer's state is `some none` when no ledger call is in flight,
`some (some j)` when the call of goroutine `j` is, and `none` once two calls
have overlapped (a call invoked while another is in flight, or a return that
is not the return of the call in flight). -/
def serialStep : Option (Option Nat) → Nat × Action → Option (Option Nat)
  | some none, (i, Action.callStart) => some (some i)
  | some (some _), (_, Action.callStart) => none
  | some (some j), (i, Action.callReturn _) => if i = j then some none else none
  | some none, (_, Action.callReturn _) => none
  | st, _ => st

/-- The observer's state after a trace. -/
def observe (trace : List (Nat × Action)) : Option (Option Nat) :=
  trace.foldl serialStep (some none)

/-- No two ledger calls of the trace overlap in time: every ledger call is
invoked only after the call invoked before it has returned. -/
def callsSerial (trace : List (Nat × Action)) : Bool :=
  (observe trace).isSome

/-- The invocations and returns of ledger calls in a trace, in order. -/
def callEvents (trace : List (Nat × Action)) : List (Nat × Action) :=
  trace.filter (fun e => e.2.isCall)

/-- The send an assertion goroutine makes for a ledger result: the wrapped
error on the error channel, or the receipt on the receipt channel. -/
def deliverAction (stage : String) (res : CallResult) : Action :=
  match res.err with
  | some e => Action.sendErr (GoError.wrap e stage)
  | none => Action.sendReceipt res.receipt

/-- The actions of a completed assertion goroutine, in order. -/
def fullLog (stage : String) (res : CallResult) : List Action :=
  [Action.lock, Action.callStart, Action.callReturn res, deliverAction stage res,
    Action.unlock, Action.closeErrChan, Action.closeReceiptChan]

/-- What section 4.3 asks of one operation, for the goroutine `g` it
started, its stage message and the result of its ledger call: after its
seven actions the goroutine is done, it sent exactly one value (the wrapped
error on the error channel if the call failed, the receipt on the receipt
channel if not, nothing on the other channel) and then closed both
channels. -/
def DeliversOnce (g : Goroutine) (stage : String) (res : CallResult) : Prop :=
  (g.run 7).pc = Pc.done ∧
  (g.run 7).log = fullLog stage res ∧
  (g.run 7).errChan.closed = true ∧
  (g.run 7).receiptChan.closed = true ∧
  (∀ e, res.err = some e →
    (g.run 7).errChan.sent = [GoError.wrap e stage] ∧ (g.run 7).receiptChan.sent = []) ∧
  (res.err = none →
    (g.run 7).receiptChan.sent = [res.receipt] ∧ (g.run 7).errChan.sent = [])

/-- The invariant of the interleaved system: a goroutine that holds the
mutex has it locked, at most one goroutine holds it, a locked mutex is held
by some goroutine, every goroutine is at some point of its own program, and
the observer of the common trace has seen no overlap and knows which call is
in flight. -/
def System.Inv (invocations : Nat → Goroutine) (s : System) : Prop :=
  (∀ i, (s.threads i).holdsMutex = true → s.locked = true) ∧
  (∀ i j, (s.threads i).holdsMutex = true → (s.threads j).holdsMutex = true → i = j) ∧
  (s.locked = true → ∃ i, (s.threads i).holdsMutex = true) ∧
  (∀ i, ∃ k, s.threads i = (invocations i).run k) ∧
  (∃ cur, observe s.trace = some cur ∧
    ∀ i, (s.threads i).callInFlight = true ↔ cur = some i)

/-! ## The broadcast client (broadcastclient.go) -/

/-- Modelled from the spec: the declaration of `broadcaster.BroadcastFeedMessage`
is not among the sources. Section 6 gives it a sequence number and the
accumulator of its batch item; the reader only sends the value on and reads
`FeedItem.BatchItem.Accumulator`. -/
structure BroadcastFeedMessage where
  sequenceNumber : Nat
  accumulator : Hash
  deriving DecidableEq, Repr

/-- Modelled from the spec: the declaration of `broadcaster.ConfirmedAccumulator`
is not among the sources; the reader reads its fields `IsConfirmed` and
`Accumulator`, a flag and a hash in section 3. -/
structure ConfirmedAccumulator where
  IsConfirmed : Bool
  Accumulator : Hash
  deriving DecidableEq, Repr

/-- Modelled from the spec: the declaration of `broadcaster.BroadcastMessage`
is not among the sources. The reader uses `Version`, `Messages` and
`ConfirmedAccumulator`. `Messages` is a slice of pointers (line 140 sends
`*message` on a channel of `BroadcastFeedMessage`), so an entry may be nil:
`none`. -/
structure BroadcastMessage where
  Version : Int
  Messages : List (Option BroadcastFeedMessage)
  ConfirmedAccumulator : ConfirmedAccumulator
  deriving DecidableEq, Repr

/-- The struct `BroadcastClient`. `conn` is `none` until a dial succeeds;
of `ConfirmedAccumulatorListener` only "is it nil" matters to the client
(`true` means a listener is registered). The mutex field is never used by the
code and is left out. -/
structure BroadcastClient where
  websocketUrl : String
  lastInboxSeqNum : Int
  conn : Option Nat
  RetryCount : Nat
  retrying : Bool
  shuttingDown : Bool
  ConfirmedAccumulatorListener : Bool
  deriving DecidableEq, Repr

/-- The constructor `NewBroadcastClient` (lines 48-61): a nil sequence number
becomes zero; every other field has its zero value. -/
def NewBroadcastClient (websocketUrl : String) (lastInboxSeqNum : Option Int) :
    BroadcastClient :=
  let seqNum := match lastInboxSeqNum with
    | none => 0
    | some n => n
  ⟨websocketUrl, seqNum, none, 0, false, false, false⟩

/-- What the client does that can be seen from outside, in order. -/
inductive ClientEvent where
  | delivered (m : BroadcastFeedMessage)
  | confirmed (acc : Hash)
  | connClosed
  | retryConnect
  | slept (ms : Nat)
  | connectCalled
  | timer (ms : Nat)
  | dialed (ok : Bool)
  | closeCalled
  deriving DecidableEq, Repr

/-- Where the client's background work stands.

* `idle`: no background task was started;
* `dialWait`: the connect task is in its `select` (lines 81-85);
* `dialing`: the connect task is in `Dial` (line 87);
* `reading`: the decode loop is at its `select` and read (lines 107-113);
* `retryHead w`: `RetryConnect` is at its loop condition (line 155);
* `retrySleep w`: `RetryConnect` is in `time.Sleep` (line 156);
* `stopped`: the task returned; `panicked`: it panicked. -/
inductive ClientPc where
  | idle
  | dialWait
  | dialing
  | reading
  | retryHead (waitMs : Nat)
  | retrySleep (waitMs : Nat)
  | stopped
  | panicked
  deriving DecidableEq, Repr

/-- What the outside world does next: the context is seen cancelled, a timer
or sleep elapses, a dial ends, a read ends with a frame or an error, the
client takes an internal step, or the owner calls `Close`. -/
inductive Input where
  | ctxDone
  | timerFired
  | dialOk (conn : Nat)
  | dialFail
  | frame (payload : String)
  | readErr
  | tau
  | close
  deriving DecidableEq, Repr

/-- The client object, the position of its background work, and the events
so far. -/
structure Client where
  bc : BroadcastClient
  pc : ClientPc
  trace : List ClientEvent
  deriving DecidableEq, Repr

/-- How the handling of one frame ends. -/
inductive FrameEnd where
  | next
  | panic
  deriving DecidableEq, Repr

/-- Lines 139-141: `for _, message := range res.Messages { messageReceiver <- *message }`.
Dereferencing a nil entry panics after the earlier entries were sent. -/
def deliverAll : List (Option BroadcastFeedMessage) → List ClientEvent × FrameEnd
  | [] => ([], FrameEnd.next)
  | none :: _ => ([], FrameEnd.panic)
  | some m :: rest =>
    let r := deliverAll rest
    (ClientEvent.delivered m :: r.1, r.2)

/-- Lines 125-146, the handling of one frame that was read. `unmarshal` is
`json.Unmarshal` into a `BroadcastMessage` (`none`: it returned an error).

* 127-130: a decode error is logged and the loop continues;
* 132-136: with at least one message the debug log evaluates
  `res.Messages[0].FeedItem.BatchItem.Accumulator`, whatever the version;
* 138-146: for version 1 every message is sent, then the confirmed
  accumulator if it is marked confirmed and a listener is registered. -/
def handleFrame (unmarshal : String → Option BroadcastMessage) (bc : BroadcastClient)
    (msg : String) : List ClientEvent × FrameEnd :=
  match unmarshal msg with
  | none => ([], FrameEnd.next)
  | some res =>
    match res.Messages with
    | none :: _ => ([], FrameEnd.panic)
    | _ =>
      if res.Version = 1 then
        match deliverAll res.Messages with
        | (evs, FrameEnd.panic) => (evs, FrameEnd.panic)
        | (evs, FrameEnd.next) =>
          if res.ConfirmedAccumulator.IsConfirmed && bc.ConfirmedAccumulatorListener then
            (evs ++ [ClientEvent.confirmed res.ConfirmedAccumulator.Accumulator],
              FrameEnd.next)
          else (evs, FrameEnd.next)
      else ([], FrameEnd.next)

/-- What `connect` hands back at once: whether it started the connect task,
and its error result. -/
structure ConnectResult where
  started : Bool
  err : Option GoError
  deriving DecidableEq, Repr

/-- The method `connect` (lines 68-102), the part that runs in the caller:
with an empty URL it returns `nil, nil`; otherwise it starts the connect
task and returns `messageReceiver, nil`. Dialling happens in the task, so no
path returns an error. -/
def connect (bc : BroadcastClient) : ConnectResult :=
  if bc.websocketUrl.length = 0 then ⟨false, none⟩ else ⟨true, none⟩

/-- The connect task of lines 75-99: wait for cancellation or for ten
seconds, dial, and on failure go round again; on success store the
connection and start the decode loop. -/
def connectTask (s : Client) (i : Input) : Client :=
  match s.pc, i with
  | ClientPc.dialWait, Input.ctxDone => { s with pc := ClientPc.stopped }
  | ClientPc.dialWait, Input.timerFired =>
    { s with pc := ClientPc.dialing, trace := s.trace ++ [ClientEvent.timer 10000] }
  | ClientPc.dialing, Input.dialFail =>
    { s with pc := ClientPc.dialWait, trace := s.trace ++ [ClientEvent.dialed false] }
  | ClientPc.dialing, Input.dialOk c =>
    { s with bc := { s.bc with conn := some c }, pc := ClientPc.reading,
             trace := s.trace ++ [ClientEvent.dialed true] }
  | _, _ => s

/-- The method `Connect` (lines 63-66). -/
def Connect (bc : BroadcastClient) : Client :=
  if (connect bc).started then ⟨bc, ClientPc.dialWait, [ClientEvent.connectCalled]⟩
  else ⟨bc, ClientPc.idle, [ClientEvent.connectCalled]⟩

/-- The method `RetryConnect` (lines 151-169), entered at line 121 with
`waitMs = 500` and `retrying` set. At the loop condition a set
`shuttingDown` ends the loop. After the sleep the retry counter is
incremented and `connect` is called; a nil error clears `retrying` and
returns, a non-nil error adds 500 to `waitMs` below the ceiling of 15000
and goes back to the loop condition. -/
def RetryConnect (s : Client) (i : Input) : Client :=
  match s.pc, i with
  | ClientPc.retryHead w, Input.tau =>
    if s.bc.shuttingDown then { s with pc := ClientPc.stopped }
    else { s with pc := ClientPc.retrySleep w }
  | ClientPc.retrySleep w, Input.timerFired =>
    let bc1 := { s.bc with RetryCount := s.bc.RetryCount + 1 }
    let r := connect bc1
    let tr := s.trace ++ [ClientEvent.slept w, ClientEvent.connectCalled]
    match r.err with
    | none =>
      ⟨{ bc1 with retrying := false },
        if r.started then ClientPc.dialWait else ClientPc.stopped, tr⟩
    | some _ =>
      ⟨bc1, ClientPc.retryHead (if w < 15000 then w + 500 else w), tr⟩
  | _, _ => s

/-- The decode loop of `startBackgroundReader` (lines 104-149), one
iteration per input: cancellation seen at the `select` returns; a read
error returns if `shuttingDown` is set and otherwise closes the connection
and enters `RetryConnect`; a frame is handled by `handleFrame`. -/
def startBackgroundReader (unmarshal : String → Option BroadcastMessage)
    (s : Client) (i : Input) : Client :=
  match s.pc, i with
  | ClientPc.reading, Input.ctxDone => { s with pc := ClientPc.stopped }
  | ClientPc.reading, Input.readErr =>
    if s.bc.shuttingDown then { s with pc := ClientPc.stopped }
    else
      { s with bc := { s.bc with retrying := true }, pc := ClientPc.retryHead 500,
               trace := s.trace ++ [ClientEvent.connClosed, ClientEvent.retryConnect] }
  | ClientPc.reading, Input.frame msg =>
    match handleFrame unmarshal s.bc msg with
    | (evs, FrameEnd.next) => { s with trace := s.trace ++ evs }
    | (evs, FrameEnd.panic) => { s with pc := ClientPc.panicked, trace := s.trace ++ evs }
  | _, _ => s

/-- The method `Close` (lines 171-175), called by the owner while the
background work stands anywhere: the flag is set, then the connection is
closed (with no connection yet, that call panics in the owner, after the
flag was set). -/
def Close (s : Client) : Client :=
  { s with bc := { s.bc with shuttingDown := true },
           trace := s.trace ++ [ClientEvent.closeCalled] ++
             (if s.bc.conn.isSome then [ClientEvent.connClosed] else []) }

/-- One step of the client under one input: `Close` can come at any time,
every other input is taken by the task that is running; an input the task
is not waiting for changes nothing. -/
def Client.step (unmarshal : String → Option BroadcastMessage) (s : Client) (i : Input) :
    Client :=
  match i with
  | Input.close => Close s
  | _ =>
    match s.pc with
    | ClientPc.dialWait => connectTask s i
    | ClientPc.dialing => connectTask s i
    | ClientPc.reading => startBackgroundReader unmarshal s i
    | ClientPc.retryHead _ => RetryConnect s i
    | ClientPc.retrySleep _ => RetryConnect s i
    | _ => s

/-- The client after a list of inputs. -/
def Client.run (unmarshal : String → Option BroadcastMessage) (s : Client)
    (inputs : List Input) : Client :=
  inputs.foldl (Client.step unmarshal) s

/-- The feed messages sent on the consumer channel, in order. -/
def deliveredOf : List ClientEvent → List BroadcastFeedMessage
  | [] => []
  | ClientEvent.delivered m :: evs => m :: deliveredOf evs
  | _ :: evs => deliveredOf evs

/-- The number of times `RetryConnect` was entered. -/
def retryConnectsOf : List ClientEvent → Nat
  | [] => 0
  | ClientEvent.retryConnect :: evs => retryConnectsOf evs + 1
  | _ :: evs => retryConnectsOf evs

/-- The number of calls of `connect`. -/
def connectCallsOf : List ClientEvent → Nat
  | [] => 0
  | ClientEvent.connectCalled :: evs => connectCallsOf evs + 1
  | _ :: evs => connectCallsOf evs

/-- The wait, in milliseconds, before each dial: sleeps and timers add up
from the previous dial (or the start) to the next one; `acc` is the wait
collected so far. -/
def waitsBeforeDials : List ClientEvent → Nat → List Nat
  | [], _ => []
  | ClientEvent.slept ms :: evs, acc => waitsBeforeDials evs (acc + ms)
  | ClientEvent.timer ms :: evs, acc => waitsBeforeDials evs (acc + ms)
  | ClientEvent.dialed _ :: evs, acc => acc :: waitsBeforeDials evs 0
  | _ :: evs, acc => waitsBeforeDials evs acc

/-- The wait before attempt `k` (counted from 1) as section 8 of the
specification has it: `min(500 + 500*(k-1), 15000)` milliseconds. -/
def specWait (k : Nat) : Nat := min (500 + 500 * (k - 1)) 15000

/-- The messages section 8 of the specification expects from one frame: the
`Messages` array of a frame that decodes with version 1, nothing otherwise. -/
def specFrameMessages (unmarshal : String → Option BroadcastMessage) (payload : String) :
    List BroadcastFeedMessage :=
  match unmarshal payload with
  | none => []
  | some res => if res.Version = 1 then res.Messages.filterMap id else []

/-- The messages the specification expects from a sequence of frames: the
concatenation, in receipt order, of what each frame gives. -/
def specDelivered (unmarshal : String → Option BroadcastMessage) :
    List String → List BroadcastFeedMessage
  | [] => []
  | p :: ps => specFrameMessages unmarshal p ++ specDelivered unmarshal ps

/-- A frame has no nil entry in its `Messages` array. -/
def noNilEntry (unmarshal : String → Option BroadcastMessage) (payload : String) : Bool :=
  match unmarshal payload with
  | none => true
  | some res => res.Messages.all Option.isSome

/-- What `json.Unmarshal` makes of five payloads used as examples below; any
other payload is taken to be malformed.

* `{"version":1,"messages":[null]}`: a null array element leaves the
  pointer nil;
* `{"version":2,"messages":[null]}`: the same with an unsupported version;
* `{"version":1,"messages":[{"sequenceNumber":5}]}` and the same with
  sequence number 6: one message each;
* `{"version":1,"messages":[{"sequenceNumber":5},null]}`: one message, then
  a nil pointer. -/
def sampleUnmarshal (payload : String) : Option BroadcastMessage :=
  if payload = "\x7b\"version\":1,\"messages\":[null]\x7d" then
    some ⟨1, [none], ⟨false, 0⟩⟩
  else if payload = "\x7b\"version\":2,\"messages\":[null]\x7d" then
    some ⟨2, [none], ⟨false, 0⟩⟩
  else if payload = "\x7b\"version\":1,\"messages\":[\x7b\"sequenceNumber\":5\x7d]\x7d" then
    some ⟨1, [some ⟨5, 0⟩], ⟨false, 0⟩⟩
  else if payload = "\x7b\"version\":1,\"messages\":[\x7b\"sequenceNumber\":6\x7d]\x7d" then
    some ⟨1, [some ⟨6, 0⟩], ⟨false, 0⟩⟩
  else if payload = "\x7b\"version\":1,\"messages\":[\x7b\"sequenceNumber\":5\x7d,null]\x7d" then
    some ⟨1, [some ⟨5, 0⟩, none], ⟨false, 0⟩⟩
  else none

/-! ## Concrete collaborators used in the examples -/

/-- A ledger whose two reads and whose `IncreaseDeposit` are fixed; the
assertion calls all succeed with receipt 1. -/
def ledgerWith (current required : BigRead) (increase : Option GoError) : ArbChannel :=
  ⟨fun _ => current, required, fun _ => increase, fun _ _ _ => ⟨some 1, none⟩,
    fun _ _ _ _ => ⟨some 1, none⟩, fun _ _ => ⟨some 1, none⟩⟩

/-- The error a failed ledger read reports in the examples. -/
def readFailed : GoError := GoError.new "escrowRequired: call failed"

/-- The address of the local validator in the examples. -/
def sampleAddress : Address := addressOfKey [2]

/-- A configuration of two keys; the local validator is the second. -/
def sampleEnv : ConstructionEnv :=
  ⟨Except.ok (ledgerWith ⟨some 10, none⟩ ⟨some 10, none⟩ none), none, sampleAddress,
    [[1], [2]]⟩

/-- The key list of 65537 entries: 65536 copies of one key, then the local
validator's key. -/
@[irreducible]
def manyKeys : List (List Nat) := List.replicate 65536 [1] ++ [[2]]

/-- The configuration with 65537 keys, on a ledger with enough deposit. -/
def manyEnv : ConstructionEnv :=
  ⟨Except.ok (ledgerWith ⟨some 10, none⟩ ⟨some 10, none⟩ none), none, sampleAddress,
    manyKeys⟩

/-- A validator on a ledger whose finalize call fails and whose other two
assertion calls succeed, the propose call with the sequence number as its
receipt. -/
def sampleValidator : ChannelValidator :=
  ⟨sampleAddress, [(sampleAddress, ⟨0⟩)],
    ⟨fun _ => ⟨some 10, none⟩, ⟨some 10, none⟩, fun _ => none,
      fun _ _ _ => ⟨none, some (GoError.new "nonce too low")⟩,
      fun _ _ n _ => ⟨some n, none⟩, fun _ _ => ⟨some 1, none⟩⟩⟩

/-- Concurrent invocations on the sample validator for inbox hash 7 and
assertion 9: finalize, propose with sequence number 4, and confirm for every
further number. -/
def sampleInvocations : Nat → Goroutine
  | 0 => FinalizedUnanimousAssert sampleValidator 7 9 []
  | 1 => PendingUnanimousAssert sampleValidator 7 9 4 []
  | _ => ConfirmUnanimousAsserted sampleValidator 7 9

/-- A client for the endpoint "ws://feed", as `NewBroadcastClient` makes it. -/
def sampleClient : BroadcastClient := NewBroadcastClient "ws://feed" none

/-- The sample client with its decode loop running on connection 1. -/
def sampleReader : Client :=
  ⟨{ sampleClient with conn := some 1 }, ClientPc.reading, []⟩

/-- The payload `{"version":1,"messages":[null]}`. -/
def nullFrame : String := "\x7b\"version\":1,\"messages\":[null]\x7d"

/-- The payload `{"version":2,"messages":[null]}`. -/
def nullFrameV2 : String := "\x7b\"version\":2,\"messages\":[null]\x7d"

/-- The payload `{"version":1,"messages":[{"sequenceNumber":5}]}`. -/
def frameFive : String := "\x7b\"version\":1,\"messages\":[\x7b\"sequenceNumber\":5\x7d]\x7d"

/-- The payload `{"version":1,"messages":[{"sequenceNumber":6}]}`. -/
def frameSix : String := "\x7b\"version\":1,\"messages\":[\x7b\"sequenceNumber\":6\x7d]\x7d"

/-- The inputs of a run in which the read fails, `RetryConnect` runs, the
first `n` dials fail and the next one succeeds with connection 2. -/
def dropThenDial : Nat → List Input
  | 0 => [Input.timerFired, Input.dialOk 2]
  | n + 1 => [Input.timerFired, Input.dialFail] ++ dropThenDial n

/-- The inputs from the read error to the reconnection after `n` failed
dials. -/
def retryInputs (n : Nat) : List Input :=
  [Input.readErr, Input.tau, Input.timerFired] ++ dropThenDial n

/-- The payload `{"version":1,"messages":[{"sequenceNumber":5},null]}`. -/
def mixedFrame : String :=
  "\x7b\"version\":1,\"messages\":[\x7b\"sequenceNumber\":5\x7d,null]\x7d"

/-- The events of the connect task when `n` dials fail and the next one
succeeds. -/
def dialEvents : Nat → List ClientEvent
  | 0 => [ClientEvent.timer 10000, ClientEvent.dialed true]
  | n + 1 => [ClientEvent.timer 10000, ClientEvent.dialed false] ++ dialEvents n

/-- The sample reader after a read error and a reconnection that needed
`n + 1` dials. -/
def afterRetry (n : Nat) : Client :=
  Client.run sampleUnmarshal sampleReader (retryInputs n)

/-! # Theorems -/

/-! ## `topOffDeposit` -/

/-- A failed `CurrentDeposit` read is returned as the error, and nothing
else is called. -/
theorem topOffDeposit_current_read_error (ch : ArbChannel) (addr : Address) (e : GoError)
    (h : (ch.CurrentDeposit addr).err = some e) :
    topOffDeposit ch addr = ([LedgerCall.CurrentDeposit addr], Outcome.returned (some e)) := by
  simp [topOffDeposit, h]

/-- C1: when both reads succeed with deposit `D` and required escrow `R`,
`topOffDeposit` returns nil without any `IncreaseDeposit` call if `D ≥ R`;
if `D < R` it issues exactly one `IncreaseDeposit` call, for `R - D`, it
returns, and it returns nil exactly when that call succeeds. -/
theorem topOffDeposit_escrow (ch : ArbChannel) (addr : Address) (D R : Int)
    (hD : ch.CurrentDeposit addr = ⟨some D, none⟩)
    (hR : ch.EscrowRequired = ⟨some R, none⟩) :
    (R ≤ D →
      (topOffDeposit ch addr).2 = Outcome.returned none ∧
      increaseCalls (topOffDeposit ch addr).1 = []) ∧
    (D < R →
      increaseCalls (topOffDeposit ch addr).1 = [R - D] ∧
      (topOffDeposit ch addr).1 =
        [LedgerCall.CurrentDeposit addr, LedgerCall.EscrowRequired,
          LedgerCall.IncreaseDeposit (R - D)] ∧
      (∃ r, (topOffDeposit ch addr).2 = Outcome.returned r) ∧
      ((topOffDeposit ch addr).2 = Outcome.returned none ↔
        ch.IncreaseDeposit (R - D) = none)) := by
  constructor
  · intro hle
    have h1 : ¬ D < R := not_lt.mpr hle
    by_cases h2 : D = R <;>
      simp [topOffDeposit, hD, hR, bigCmp, bigSub, h1, h2, increaseCalls]
  · intro hlt
    cases hinc : ch.IncreaseDeposit (R - D) <;>
      simp [topOffDeposit, hD, hR, bigCmp, bigSub, hlt, hinc, increaseCalls]

/-- Witness of C1: deposit 3 against a required escrow of 10, on a ledger
whose `IncreaseDeposit` succeeds. -/
theorem topOffDeposit_escrow_witness :
    ((10 : Int) ≤ 3 →
      (topOffDeposit (ledgerWith ⟨some 3, none⟩ ⟨some 10, none⟩ none) sampleAddress).2
          = Outcome.returned none ∧
      increaseCalls
        (topOffDeposit (ledgerWith ⟨some 3, none⟩ ⟨some 10, none⟩ none) sampleAddress).1
          = []) ∧
    ((3 : Int) < 10 →
      increaseCalls
        (topOffDeposit (ledgerWith ⟨some 3, none⟩ ⟨some 10, none⟩ none) sampleAddress).1
          = [10 - 3] ∧
      (topOffDeposit (ledgerWith ⟨some 3, none⟩ ⟨some 10, none⟩ none) sampleAddress).1 =
        [LedgerCall.CurrentDeposit sampleAddress, LedgerCall.EscrowRequired,
          LedgerCall.IncreaseDeposit (10 - 3)] ∧
      (∃ r, (topOffDeposit (ledgerWith ⟨some 3, none⟩ ⟨some 10, none⟩ none) sampleAddress).2
          = Outcome.returned r) ∧
      ((topOffDeposit (ledgerWith ⟨some 3, none⟩ ⟨some 10, none⟩ none) sampleAddress).2
          = Outcome.returned none ↔
        (ledgerWith ⟨some 3, none⟩ ⟨some 10, none⟩ none).IncreaseDeposit (10 - 3) = none)) :=
  topOffDeposit_escrow (ledgerWith ⟨some 3, none⟩ ⟨some 10, none⟩ none) sampleAddress 3 10
    rfl rfl

/-- C2, the code at three ledgers whose `EscrowRequired` read fails while
`CurrentDeposit` reads 5. The error of the read is never looked at:

* with a nil value the comparison `current.Cmp(required)` panics;
* with the value 0 the function returns nil, reporting success;
* with the value 8 a deficit of 3 is computed from the failed read and
  `IncreaseDeposit 3` is issued, and nil is returned. -/
theorem topOffDeposit_escrow_read_error_ignored :
    topOffDeposit (ledgerWith ⟨some 5, none⟩ ⟨none, some readFailed⟩ none) sampleAddress
      = ([LedgerCall.CurrentDeposit sampleAddress, LedgerCall.EscrowRequired],
          Outcome.panicked) ∧
    topOffDeposit (ledgerWith ⟨some 5, none⟩ ⟨some 0, some readFailed⟩ none) sampleAddress
      = ([LedgerCall.CurrentDeposit sampleAddress, LedgerCall.EscrowRequired],
          Outcome.returned none) ∧
    topOffDeposit (ledgerWith ⟨some 5, none⟩ ⟨some 8, some readFailed⟩ none) sampleAddress
      = ([LedgerCall.CurrentDeposit sampleAddress, LedgerCall.EscrowRequired,
          LedgerCall.IncreaseDeposit 3], Outcome.returned none) := by
  refine ⟨?_, ?_, ?_⟩ <;> simp [topOffDeposit, ledgerWith, bigCmp, bigSub]

/-! ## `NewChannelValidator` -/

theorem mapLookup_filter_ne (m : ValidatorMap) (k a : Address) :
    mapLookup (m.filter (fun p => !decide (p.1 = k))) a = if a = k then none else mapLookup m a := by
  induction m with
  | nil => simp [mapLookup]
  | cons p m ih =>
    obtain ⟨k', v⟩ := p
    by_cases hk : k' = k
    · subst hk
      by_cases ha : a = k'
      · subst ha
        simpa [List.filter, mapLookup] using ih
      · simp [List.filter, mapLookup, ih, ha]
    · by_cases ha : a = k
      · subst ha
        have : ¬ a = k' := fun h => hk h.symm
        simp [List.filter, mapLookup, ih, hk, this]
      · by_cases ha' : a = k' <;> simp [List.filter, mapLookup, ih, hk, ha, ha']

theorem mapLookup_mapInsert (m : ValidatorMap) (k a : Address) (v : validatorInfo) :
    mapLookup (mapInsert m k v) a = if a = k then some v else mapLookup m a := by
  by_cases ha : a = k <;> simp [mapInsert, mapLookup, mapLookup_filter_ne, ha]

/-- An address outside the key list keeps the entry it had. -/
theorem fillMap_lookup_not_mem (ks : List Address) (i : Nat) (m : ValidatorMap) (a : Address)
    (h : a ∉ ks) : mapLookup (fillMap ks i m) a = mapLookup m a := by
  induction ks generalizing i m with
  | nil => rfl
  | cons k rest ih =>
    have hk : ¬ a = k := fun e => h (e ▸ List.mem_cons_self _ _)
    have hr : a ∉ rest := fun e => h (List.mem_cons_of_mem _ e)
    simp [fillMap, ih _ _ hr, mapLookup_mapInsert, hk]

/-- An address of the key list is mapped to the index, reduced modulo
`2^16`, of the last entry that equals it. -/
theorem fillMap_lookup_mem (ks : List Address) (i : Nat) (m : ValidatorMap) (a : Address)
    (h : a ∈ ks) :
    ∃ j, j < ks.length ∧ ks[j]? = some a ∧ (∀ l, j < l → ks[l]? ≠ some a) ∧
      mapLookup (fillMap ks i m) a = some ⟨(i + j) % 65536⟩ := by
  induction ks generalizing i m with
  | nil => simp at h
  | cons k rest ih =>
    by_cases hr : a ∈ rest
    · obtain ⟨j, hj, hget, hlast, hlook⟩ := ih (i + 1) (mapInsert m k ⟨i % 65536⟩) hr
      refine ⟨j + 1, by simpa using hj, by simpa using hget, ?_, ?_⟩
      · intro l hl
        cases l with
        | zero => omega
        | succ l => simpa using hlast l (by omega)
      · rw [fillMap, hlook]
        congr 2
        omega
    · have hk : a = k := by
        rcases List.mem_cons.mp h with e | e
        · exact e
        · exact absurd e hr
      subst hk
      refine ⟨0, by simp, by simp, ?_, ?_⟩
      · intro l hl
        cases l with
        | zero => omega
        | succ l =>
          intro e
          exact hr (List.mem_iff_getElem?.mpr ⟨l, by simpa using e⟩)
      · simp [fillMap, fillMap_lookup_not_mem _ _ _ _ hr, mapLookup_mapInsert]

theorem fillMap_append_singleton (ks : List Address) (a : Address) (i : Nat) (m : ValidatorMap) :
    fillMap (ks ++ [a]) i m = mapInsert (fillMap ks i m) a ⟨(i + ks.length) % 65536⟩ := by
  induction ks generalizing i m with
  | nil => simp [fillMap]
  | cons k rest ih =>
    have : i + 1 + rest.length = i + (rest.length + 1) := by omega
    rw [List.cons_append, fillMap, ih, fillMap, List.length_cons, this]

theorem mapLookup_isSome_iff_mem (ks : List Address) (a : Address) :
    (mapLookup (fillMap ks 0 []) a).isSome = true ↔ a ∈ ks := by
  constructor
  · intro h
    by_contra hn
    rw [fillMap_lookup_not_mem _ _ _ _ hn] at h
    simp [mapLookup] at h
  · intro h
    obtain ⟨j, _, _, _, hl⟩ := fillMap_lookup_mem ks 0 [] a h
    simp [hl]

/-- C9 as amended: with the channel connection and the base validator
constructed, `NewChannelValidator` returns the error "key is not a validator
of chosen ArbChannel" exactly when the local address is none of the derived
addresses, and then returns no validator and makes no ledger call. A
validator that is returned has a `Validators` map that contains the local
address and maps every derived address to the index, reduced modulo `2^16`,
of the last `AssertKeys` entry that yields it; with at most 65536 keys that
is the index itself. Such a validator is returned whenever the local address
is a derived address and the top-off returns nil. -/
theorem NewChannelValidator_membership (env : ConstructionEnv) (con : ArbChannel)
    (hcon : env.NewArbChannel = Except.ok con) (hvm : env.NewVMValidator = none) :
    ((NewChannelValidator env).2 = Outcome.returned
        (none, some (GoError.new "key is not a validator of chosen ArbChannel")) ↔
      env.localAddress ∉ deriveKeys env.AssertKeys) ∧
    (env.localAddress ∉ deriveKeys env.AssertKeys →
      NewChannelValidator env = ([], Outcome.returned
        (none, some (GoError.new "key is not a validator of chosen ArbChannel")))) ∧
    (∀ cv err, (NewChannelValidator env).2 = Outcome.returned (some cv, err) →
      (mapLookup cv.Validators env.localAddress).isSome = true ∧
      ∀ a ∈ deriveKeys env.AssertKeys,
        ∃ j, j < env.AssertKeys.length ∧
          (env.AssertKeys[j]?).map addressOfKey = some a ∧
          (∀ l, j < l → (env.AssertKeys[l]?).map addressOfKey ≠ some a) ∧
          mapLookup cv.Validators a = some ⟨j % 65536⟩ ∧
          (env.AssertKeys.length ≤ 65536 → mapLookup cv.Validators a = some ⟨j⟩)) ∧
    (env.localAddress ∈ deriveKeys env.AssertKeys →
      ∀ calls, topOffDeposit con env.localAddress = (calls, Outcome.returned none) →
        NewChannelValidator env = (calls, Outcome.returned
          (some ⟨env.localAddress, fillMap (deriveKeys env.AssertKeys) 0 [], con⟩, none))) := by
  have hmem := mapLookup_isSome_iff_mem (deriveKeys env.AssertKeys) env.localAddress
  cases hl : mapLookup (fillMap (deriveKeys env.AssertKeys) 0 []) env.localAddress with
  | none =>
    have hnot : env.localAddress ∉ deriveKeys env.AssertKeys := by
      intro h
      have := hmem.mpr h
      simp [hl] at this
    refine ⟨?_, ?_, ?_, ?_⟩
    · simp [NewChannelValidator, hcon, hvm, hl, hnot]
    · intro _
      simp [NewChannelValidator, hcon, hvm, hl]
    · intro cv err h
      simp [NewChannelValidator, hcon, hvm, hl] at h
    · intro h
      exact absurd h hnot
  | some info =>
    have hin : env.localAddress ∈ deriveKeys env.AssertKeys := hmem.mp (by simp [hl])
    refine ⟨?_, ?_, ?_, ?_⟩
    rotate_right
    · intro _ calls htop
      simp [NewChannelValidator, hcon, hvm, hl, htop]
    · constructor
      · intro h
        exfalso
        rcases htop : topOffDeposit con env.localAddress with ⟨calls, out⟩
        rcases out with (_ | e) | _ <;>
          simp [NewChannelValidator, hcon, hvm, hl, htop] at h
      · intro h
        exact absurd hin h
    · intro h
      exact absurd hin h
    · intro cv err h
      have hcv : cv.Validators = fillMap (deriveKeys env.AssertKeys) 0 [] := by
        rcases htop : topOffDeposit con env.localAddress with ⟨calls, out⟩
        rcases out with (_ | e) | _ <;>
          simp [NewChannelValidator, hcon, hvm, hl, htop] at h
        rw [← h.1]
      rw [hcv]
      refine ⟨by simp [hl], ?_⟩
      intro a ha
      obtain ⟨j, hj, hget, hlast, hlook⟩ :=
        fillMap_lookup_mem (deriveKeys env.AssertKeys) 0 [] a ha
      have hlen : (deriveKeys env.AssertKeys).length = env.AssertKeys.length := by
        simp [deriveKeys]
      refine ⟨j, by omega, ?_, ?_, ?_, ?_⟩
      · simpa [deriveKeys] using hget
      · intro l hl'
        simpa [deriveKeys] using hlast l hl'
      · simpa using hlook
      · intro hbound
        have : j % 65536 = j := Nat.mod_eq_of_lt (by omega)
        simpa [this] using hlook

/-- Witness of C9: two keys, the local validator being the second, on a
ledger with enough deposit. -/
theorem NewChannelValidator_membership_witness :
    ((NewChannelValidator sampleEnv).2 = Outcome.returned
        (none, some (GoError.new "key is not a validator of chosen ArbChannel")) ↔
      sampleEnv.localAddress ∉ deriveKeys sampleEnv.AssertKeys) ∧
    (sampleEnv.localAddress ∉ deriveKeys sampleEnv.AssertKeys →
      NewChannelValidator sampleEnv = ([], Outcome.returned
        (none, some (GoError.new "key is not a validator of chosen ArbChannel")))) ∧
    (∀ cv err, (NewChannelValidator sampleEnv).2 = Outcome.returned (some cv, err) →
      (mapLookup cv.Validators sampleEnv.localAddress).isSome = true ∧
      ∀ a ∈ deriveKeys sampleEnv.AssertKeys,
        ∃ j, j < sampleEnv.AssertKeys.length ∧
          (sampleEnv.AssertKeys[j]?).map addressOfKey = some a ∧
          (∀ l, j < l → (sampleEnv.AssertKeys[l]?).map addressOfKey ≠ some a) ∧
          mapLookup cv.Validators a = some ⟨j % 65536⟩ ∧
          (sampleEnv.AssertKeys.length ≤ 65536 → mapLookup cv.Validators a = some ⟨j⟩)) ∧
    (sampleEnv.localAddress ∈ deriveKeys sampleEnv.AssertKeys →
      ∀ calls,
        topOffDeposit (ledgerWith ⟨some 10, none⟩ ⟨some 10, none⟩ none) sampleEnv.localAddress
          = (calls, Outcome.returned none) →
        NewChannelValidator sampleEnv = (calls, Outcome.returned
          (some ⟨sampleEnv.localAddress, fillMap (deriveKeys sampleEnv.AssertKeys) 0 [],
            ledgerWith ⟨some 10, none⟩ ⟨some 10, none⟩ none⟩, none))) :=
  NewChannelValidator_membership sampleEnv
    (ledgerWith ⟨some 10, none⟩ ⟨some 10, none⟩ none) rfl rfl

theorem deriveKeys_manyKeys :
    deriveKeys manyKeys = List.replicate 65536 (addressOfKey [1]) ++ [sampleAddress] := by
  rw [deriveKeys, manyKeys, List.map_append, List.map_replicate]
  rfl

theorem manyKeys_lookup :
    mapLookup (fillMap (deriveKeys manyKeys) 0 []) sampleAddress = some ⟨0⟩ := by
  rw [deriveKeys_manyKeys, fillMap_append_singleton, mapLookup_mapInsert, if_pos rfl,
    List.length_replicate]

theorem replicate_append_getElem? {α : Type} (n j : Nat) (a b : α) (hne : a ≠ b) :
    (List.replicate n a ++ [b])[j]? = some b ↔ j = n := by
  rcases Nat.lt_trichotomy j n with h | h | h
  · rw [List.getElem?_append_left (by simpa using h), List.getElem?_replicate]
    simp [h, hne]
    omega
  · subst h
    rw [List.getElem?_append_right (by simp)]
    simp
  · rw [List.getElem?_eq_none (by simp; omega)]
    simp
    omega

theorem manyKeys_getElem? (j : Nat) :
    (manyKeys[j]?).map addressOfKey = some sampleAddress ↔ j = 65536 := by
  have hne : addressOfKey [1] ≠ sampleAddress := by decide
  rw [← List.getElem?_map]
  change (deriveKeys manyKeys)[j]? = some sampleAddress ↔ j = 65536
  rw [deriveKeys_manyKeys]
  exact replicate_append_getElem? 65536 j _ _ hne

theorem mem_replicate_append {α : Type} (n : Nat) (a b : α) :
    b ∈ List.replicate n a ++ [b] := by
  simp

/-- C9 as stated fails with 65537 keys, the local validator's key being the
last: the constructor succeeds and `Validators` maps the local address to
index 0, although entry 0 yields another address and the only entry that
yields the local address is entry 65536. -/
theorem NewChannelValidator_index_wraps :
    ∃ cv, NewChannelValidator manyEnv =
        ([LedgerCall.CurrentDeposit sampleAddress, LedgerCall.EscrowRequired],
          Outcome.returned (some cv, none)) ∧
      sampleAddress ∈ deriveKeys manyEnv.AssertKeys ∧
      mapLookup cv.Validators sampleAddress = some ⟨0⟩ ∧
      ¬ ∃ j, (manyEnv.AssertKeys[j]?).map addressOfKey = some sampleAddress ∧
          mapLookup cv.Validators sampleAddress = some ⟨j⟩ := by
  refine ⟨⟨sampleAddress, fillMap (deriveKeys manyKeys) 0 [],
    ledgerWith ⟨some 10, none⟩ ⟨some 10, none⟩ none⟩, ?_, ?_, manyKeys_lookup, ?_⟩
  · simp [NewChannelValidator, manyEnv, manyKeys_lookup, topOffDeposit, ledgerWith, bigCmp]
  · change sampleAddress ∈ deriveKeys manyKeys
    rw [deriveKeys_manyKeys]
    exact mem_replicate_append _ _ _
  · rintro ⟨j, hj, hlook⟩
    have hj' : j = 65536 := (manyKeys_getElem? j).mp hj
    rw [manyKeys_lookup, hj'] at hlook
    simp at hlook

/-- On the sample configuration the constructor reads the two balances,
finds the deposit sufficient and returns a validator whose map sends the
first key's address to 0 and the local address to 1. -/
theorem NewChannelValidator_sample :
    (NewChannelValidator sampleEnv).1
      = [LedgerCall.CurrentDeposit sampleAddress, LedgerCall.EscrowRequired] ∧
    ∃ cv, (NewChannelValidator sampleEnv).2 = Outcome.returned (some cv, none) ∧
      mapLookup cv.Validators (addressOfKey [1]) = some ⟨0⟩ ∧
      mapLookup cv.Validators sampleAddress = some ⟨1⟩ :=
  ⟨rfl, _, rfl, rfl, rfl⟩

/-! ## The unanimous-assertion operations -/

theorem spawnAssert_deliversOnce (stage : String) (res : CallResult) :
    DeliversOnce (spawnAssert stage res) stage res := by
  obtain ⟨receipt, err⟩ := res
  cases err <;>
    simp [DeliversOnce, Goroutine.run, Goroutine.step, spawnAssert, Chan.make, Chan.send,
      Chan.close, fullLog, deliverAction]

/-- C3: for each of `FinalizedUnanimousAssert`, `PendingUnanimousAssert`
and `ConfirmUnanimousAsserted`, whatever the ledger call returns, the
goroutine completes, sends exactly one value and then closes both channels:
the ledger error wrapped with the operation's stage message on the error
channel (nothing on the receipt channel) if the call failed, the receipt on
the receipt channel (nothing on the error channel) if it succeeded. -/
theorem assert_operations_deliver_once (val : ChannelValidator) (newInboxHash : Hash)
    (assertion : Assertion) (sequenceNum : Nat) (signatures : Signatures) :
    DeliversOnce (FinalizedUnanimousAssert val newInboxHash assertion signatures)
      "failed sending finalized unanimous assertion"
      (val.arbChannel.FinalizedUnanimousAssert newInboxHash assertion signatures) ∧
    DeliversOnce (PendingUnanimousAssert val newInboxHash assertion sequenceNum signatures)
      "failed proposing unanimous assertion"
      (val.arbChannel.PendingUnanimousAssert newInboxHash assertion sequenceNum signatures) ∧
    DeliversOnce (ConfirmUnanimousAsserted val newInboxHash assertion)
      "failed confirming unanimous assertion"
      (val.arbChannel.ConfirmUnanimousAsserted newInboxHash assertion) :=
  ⟨spawnAssert_deliversOnce _ _, spawnAssert_deliversOnce _ _, spawnAssert_deliversOnce _ _⟩

/-- Witness of C3 on the sample validator, whose finalize call fails with
"nonce too low" and whose propose call succeeds with receipt 4: the wrapped
error is the only value on the error channel, the receipt the only value on
the receipt channel. -/
theorem assert_operations_deliver_once_witness :
    (((FinalizedUnanimousAssert sampleValidator 7 9 []).run 7).errChan.sent
        = [GoError.wrap (GoError.new "nonce too low")
            "failed sending finalized unanimous assertion"] ∧
      ((FinalizedUnanimousAssert sampleValidator 7 9 []).run 7).receiptChan.sent = []) ∧
    (((PendingUnanimousAssert sampleValidator 7 9 4 []).run 7).receiptChan.sent = [some 4] ∧
      ((PendingUnanimousAssert sampleValidator 7 9 4 []).run 7).errChan.sent = []) :=
  ⟨(assert_operations_deliver_once sampleValidator 7 9 4 []).1.2.2.2.2.1 _ rfl,
    (assert_operations_deliver_once sampleValidator 7 9 4 []).2.1.2.2.2.2.2 rfl⟩


theorem Goroutine.step_holdsMutex (g : Goroutine) :
    (g.pc = Pc.lock → g.holdsMutex = false ∧ g.step.holdsMutex = true) ∧
    (g.pc = Pc.unlock → g.holdsMutex = true ∧ g.step.holdsMutex = false) ∧
    (g.pc ≠ Pc.lock → g.pc ≠ Pc.unlock → g.step.holdsMutex = g.holdsMutex) := by
  obtain ⟨stage, ledger, pc, rc, ec, log⟩ := g
  cases pc <;> simp [Goroutine.step, Goroutine.holdsMutex]
  all_goals (repeat' split) <;> simp

/-- What a step adds to the common trace and does to "call in flight": at
`call` it adds the invocation and the call is in flight afterwards, at
`await` it adds the return and the call is no longer in flight, and at every
other point it adds no call action and no call is in flight before or
after. -/
theorem Goroutine.step_call (i : Nat) (g : Goroutine) :
    (g.pc = Pc.call → stepActions i g = [(i, Action.callStart)] ∧
      g.callInFlight = false ∧ g.step.callInFlight = true ∧ g.holdsMutex = true) ∧
    (g.pc = Pc.await → stepActions i g = [(i, Action.callReturn g.ledger)] ∧
      g.callInFlight = true ∧ g.step.callInFlight = false) ∧
    (g.pc ≠ Pc.call → g.pc ≠ Pc.await →
      (∀ e ∈ stepActions i g, e.2.isCall = false) ∧
      g.callInFlight = false ∧ g.step.callInFlight = false) := by
  obtain ⟨stage, ledger, pc, rc, ec, log⟩ := g
  cases pc <;>
    simp [Goroutine.step, Goroutine.callInFlight, Goroutine.holdsMutex, stepActions]
  all_goals (repeat' split) <;> simp [Action.isCall, List.drop_eq_nil_of_le]

theorem serialStep_other (st : Option (Option Nat)) (e : Nat × Action)
    (h : e.2.isCall = false) : serialStep st e = st := by
  obtain ⟨i, a⟩ := e
  cases a <;> simp [Action.isCall] at h <;> rcases st with _ | _ | _ <;> rfl

theorem foldl_serialStep_other (st : Option (Option Nat)) (es : List (Nat × Action))
    (h : ∀ e ∈ es, e.2.isCall = false) : es.foldl serialStep st = st := by
  induction es generalizing st with
  | nil => rfl
  | cons e es ih =>
    rw [List.foldl_cons, serialStep_other st e (h e (List.mem_cons_self _ _))]
    exact ih st (fun e' he' => h e' (List.mem_cons_of_mem _ he'))

/-- The fields of the system after a step of goroutine `i` that is not
stopped at `Lock`. -/
theorem System.step_fields (s : System) (i : Nat)
    (h : (s.threads i).pc = Pc.lock → s.locked = false) :
    (s.step i).threads = Function.update s.threads i (s.threads i).step ∧
    (s.step i).trace = s.trace ++ stepActions i (s.threads i) ∧
    (s.step i).locked =
      (if (s.threads i).pc = Pc.lock then true
       else if (s.threads i).pc = Pc.unlock then false else s.locked) := by
  cases hpc : (s.threads i).pc <;> simp_all [System.step]

theorem System.step_blocked (s : System) (i : Nat)
    (hpc : (s.threads i).pc = Pc.lock) (hl : s.locked = true) : s.step i = s := by
  simp [System.step, hpc, hl]

theorem Goroutine.holdsMutex_of_callInFlight (g : Goroutine) (h : g.callInFlight = true) :
    g.holdsMutex = true := by
  simp only [Goroutine.callInFlight, decide_eq_true_eq] at h
  simp [Goroutine.holdsMutex, h]

theorem observe_append (tr es : List (Nat × Action)) :
    observe (tr ++ es) = es.foldl serialStep (observe tr) := by
  simp [observe, List.foldl_append]

theorem System.Inv_start (invocations : Nat → Goroutine)
    (h : ∀ i, (invocations i).pc = Pc.lock) : System.Inv invocations (System.start invocations) := by
  refine ⟨?_, ?_, ?_, ?_, ?_⟩
  · intro i hi
    simp [System.start, Goroutine.holdsMutex, h i] at hi
  · intro i j hi
    simp [System.start, Goroutine.holdsMutex, h i] at hi
  · intro hl
    simp [System.start] at hl
  · intro i
    exact ⟨0, rfl⟩
  · refine ⟨none, rfl, ?_⟩
    intro i
    simp [System.start, Goroutine.callInFlight, h i]

/-- The mutex part of the invariant is kept by every step. -/
theorem System.Inv_step_mutex (s : System) (i : Nat)
    (h1 : ∀ j, (s.threads j).holdsMutex = true → s.locked = true)
    (h2 : ∀ a b, (s.threads a).holdsMutex = true → (s.threads b).holdsMutex = true → a = b)
    (h3 : s.locked = true → ∃ j, (s.threads j).holdsMutex = true) :
    (∀ j, ((s.step i).threads j).holdsMutex = true → (s.step i).locked = true) ∧
    (∀ a b, ((s.step i).threads a).holdsMutex = true →
      ((s.step i).threads b).holdsMutex = true → a = b) ∧
    ((s.step i).locked = true → ∃ j, ((s.step i).threads j).holdsMutex = true) := by
  obtain ⟨hlock, hunlock, hother⟩ := Goroutine.step_holdsMutex (s.threads i)
  by_cases hb : (s.threads i).pc = Pc.lock ∧ s.locked = true
  · rw [System.step_blocked s i hb.1 hb.2]
    exact ⟨h1, h2, h3⟩
  · have hfree : (s.threads i).pc = Pc.lock → s.locked = false := by
      intro hpc
      cases hl : s.locked
      · rfl
      · exact absurd ⟨hpc, hl⟩ hb
    obtain ⟨hth, _, hlk⟩ := System.step_fields s i hfree
    rw [hth, hlk]
    have hne : ∀ j, j ≠ i → Function.update s.threads i (s.threads i).step j = s.threads j :=
      fun j hj => Function.update_noteq hj _ _
    have hsame : Function.update s.threads i (s.threads i).step i = (s.threads i).step :=
      Function.update_same _ _ _
    by_cases hpl : (s.threads i).pc = Pc.lock
    · have hl : s.locked = false := hfree hpl
      have hnone : ∀ j, (s.threads j).holdsMutex = true → False := by
        intro j hj
        have := h1 j hj
        rw [hl] at this
        exact Bool.noConfusion this
      have honly : ∀ j, (Function.update s.threads i (s.threads i).step j).holdsMutex = true →
          j = i := by
        intro j hj
        by_contra hji
        rw [hne j hji] at hj
        exact hnone j hj
      simp only [hpl, if_true]
      refine ⟨fun _ _ => trivial, ?_, ?_⟩
      · intro a b ha hb'
        rw [honly a ha, honly b hb']
      · intro _
        exact ⟨i, by rw [hsame]; exact (hlock hpl).2⟩
    · by_cases hpu : (s.threads i).pc = Pc.unlock
      · have hi := hunlock hpu
        have hnone : ∀ j, (Function.update s.threads i (s.threads i).step j).holdsMutex
            = true → False := by
          intro j hj
          by_cases hji : j = i
          · subst hji
            rw [hsame, hi.2] at hj
            exact Bool.noConfusion hj
          · rw [hne j hji] at hj
            exact hji (h2 j i hj hi.1)
        simp only [hpl, hpu, if_true, if_false]
        refine ⟨fun j hj => (hnone j hj).elim, fun a _ ha _ => (hnone a ha).elim, ?_⟩
        intro hl
        exact Bool.noConfusion hl
      · have hkeep : ∀ j, (Function.update s.threads i (s.threads i).step j).holdsMutex
            = (s.threads j).holdsMutex := by
          intro j
          by_cases hji : j = i
          · subst hji
            rw [hsame]
            exact hother hpl hpu
          · rw [hne j hji]
        simp only [hpl, hpu, if_false]
        refine ⟨?_, ?_, ?_⟩
        · intro j hj
          rw [hkeep] at hj
          exact h1 j hj
        · intro a b ha hb'
          rw [hkeep] at ha hb'
          exact h2 a b ha hb'
        · intro hl
          obtain ⟨j, hj⟩ := h3 hl
          exact ⟨j, by rw [hkeep]; exact hj⟩

/-- The observer part of the invariant is kept by every step. -/
theorem System.Inv_step_observer (s : System) (i : Nat)
    (h2 : ∀ a b, (s.threads a).holdsMutex = true → (s.threads b).holdsMutex = true → a = b)
    (cur : Option Nat) (hobs : observe s.trace = some cur)
    (hcur : ∀ j, (s.threads j).callInFlight = true ↔ cur = some j) :
    ∃ cur', observe (s.step i).trace = some cur' ∧
      ∀ j, ((s.step i).threads j).callInFlight = true ↔ cur' = some j := by
  obtain ⟨hcall, hawait, hrest⟩ := Goroutine.step_call i (s.threads i)
  by_cases hb : (s.threads i).pc = Pc.lock ∧ s.locked = true
  · rw [System.step_blocked s i hb.1 hb.2]
    exact ⟨cur, hobs, hcur⟩
  · have hfree : (s.threads i).pc = Pc.lock → s.locked = false := by
      intro hpc
      cases hl : s.locked
      · rfl
      · exact absurd ⟨hpc, hl⟩ hb
    obtain ⟨hth, htr, _⟩ := System.step_fields s i hfree
    rw [hth, htr, observe_append, hobs]
    have hne : ∀ j, j ≠ i → Function.update s.threads i (s.threads i).step j = s.threads j :=
      fun j hj => Function.update_noteq hj _ _
    have hsame : Function.update s.threads i (s.threads i).step i = (s.threads i).step :=
      Function.update_same _ _ _
    by_cases hpc : (s.threads i).pc = Pc.call
    · obtain ⟨hacts, hbefore, hafter, hholds⟩ := hcall hpc
      have hnone : cur = none := by
        cases hc : cur with
        | none => rfl
        | some j =>
          have hj : (s.threads j).callInFlight = true := (hcur j).mpr hc
          have hji : j = i := h2 j i (Goroutine.holdsMutex_of_callInFlight _ hj) hholds
          rw [hji, hbefore] at hj
          exact Bool.noConfusion hj
      subst hnone
      refine ⟨some i, by rw [hacts]; rfl, ?_⟩
      intro j
      by_cases hji : j = i
      · subst hji
        rw [hsame, hafter]
        simp
      · rw [hne j hji, hcur j]
        constructor
        · intro h
          exact Option.noConfusion h
        · intro h
          exact absurd (Option.some.inj h).symm hji
    · by_cases hpa : (s.threads i).pc = Pc.await
      · obtain ⟨hacts, hbefore, hafter⟩ := hawait hpa
        have hci : cur = some i := (hcur i).mp hbefore
        subst hci
        refine ⟨none, by rw [hacts]; simp [serialStep], ?_⟩
        intro j
        by_cases hji : j = i
        · subst hji
          rw [hsame, hafter]
          simp
        · rw [hne j hji, hcur j]
          constructor
          · intro h
            exact absurd (Option.some.inj h).symm hji
          · intro h
            exact Option.noConfusion h
      · obtain ⟨hacts, hbefore, hafter⟩ := hrest hpc hpa
        refine ⟨cur, by rw [foldl_serialStep_other _ _ hacts], ?_⟩
        intro j
        by_cases hji : j = i
        · subst hji
          rw [hsame, hafter, ← hcur j, hbefore]
        · rw [hne j hji, hcur j]

theorem System.Inv_step (invocations : Nat → Goroutine) (s : System) (i : Nat)
    (h : System.Inv invocations s) : System.Inv invocations (s.step i) := by
  obtain ⟨h1, h2, h3, h4, cur, hobs, hcur⟩ := h
  obtain ⟨m1, m2, m3⟩ := System.Inv_step_mutex s i h1 h2 h3
  refine ⟨m1, m2, m3, ?_, System.Inv_step_observer s i h2 cur hobs hcur⟩
  by_cases hb : (s.threads i).pc = Pc.lock ∧ s.locked = true
  · rw [System.step_blocked s i hb.1 hb.2]
    exact h4
  · have hfree : (s.threads i).pc = Pc.lock → s.locked = false := by
      intro hpc
      cases hl : s.locked
      · rfl
      · exact absurd ⟨hpc, hl⟩ hb
    rw [(System.step_fields s i hfree).1]
    intro j
    by_cases hj : j = i
    · subst hj
      obtain ⟨k, hk⟩ := h4 j
      exact ⟨k + 1, by rw [Function.update_same, Goroutine.run, hk]⟩
    · rw [Function.update_noteq hj]
      exact h4 j

theorem System.Inv_run (invocations : Nat → Goroutine) (schedule : List Nat) (s : System)
    (h : System.Inv invocations s) : System.Inv invocations (s.run schedule) := by
  induction schedule generalizing s with
  | nil => exact h
  | cons i rest ih => exact ih _ (System.Inv_step invocations s i h)

theorem Goroutine.step_done (g : Goroutine) (h : g.pc = Pc.done) : g.step = g := by
  obtain ⟨stage, ledger, pc, rc, ec, log⟩ := g
  simp only at h
  subst h
  rfl

theorem Goroutine.run_add (g : Goroutine) (a b : Nat) : (g.run a).run b = g.run (a + b) := by
  induction b with
  | zero => rfl
  | succ b ih => rw [Goroutine.run, ih, ← Nat.add_assoc, Goroutine.run]

theorem spawnAssert_run_done (stage : String) (res : CallResult) (k : Nat) :
    (spawnAssert stage res).run (7 + k) = (spawnAssert stage res).run 7 := by
  induction k with
  | zero => rfl
  | succ k ih =>
    have hd : ((spawnAssert stage res).run 7).pc = Pc.done := (spawnAssert_deliversOnce stage res).1
    rw [← Nat.add_assoc, Goroutine.run, ih, Goroutine.step_done _ hd]

theorem spawnAssert_run_le (stage : String) (res : CallResult) (k : Nat) :
    ∃ n, n ≤ 7 ∧ (spawnAssert stage res).run k = (spawnAssert stage res).run n := by
  by_cases h : k ≤ 7
  · exact ⟨k, h, rfl⟩
  · refine ⟨7, le_refl _, ?_⟩
    obtain ⟨d, rfl⟩ : ∃ d, k = 7 + d := ⟨k - 7, by omega⟩
    exact spawnAssert_run_done stage res d

/-- Every state of an assertion goroutine has logged a beginning of the
complete action sequence; while its ledger call is in flight it has locked
the mutex and not yet unlocked it. -/
theorem spawnAssert_run_log (stage : String) (res : CallResult) (k : Nat) :
    ((spawnAssert stage res).run k).log <+: fullLog stage res ∧
    (((spawnAssert stage res).run k).callInFlight = true →
      ((spawnAssert stage res).run k).log = [Action.lock, Action.callStart]) := by
  obtain ⟨n, hn, hk⟩ := spawnAssert_run_le stage res k
  rw [hk]
  obtain ⟨receipt, err⟩ := res
  interval_cases n <;> cases err <;>
    simp [Goroutine.run, Goroutine.step, Goroutine.callInFlight, spawnAssert, Chan.make,
      Chan.send, Chan.close, fullLog, deliverAction]

/-- Seven further actions bring an assertion goroutine to its end from any
point of its program: it is done, its log is complete and it does not hold
the mutex. -/
theorem spawnAssert_run_finish (stage : String) (res : CallResult) (k : Nat) :
    (((spawnAssert stage res).run k).run 7).pc = Pc.done ∧
    (((spawnAssert stage res).run k).run 7).log = fullLog stage res ∧
    (((spawnAssert stage res).run k).run 7).holdsMutex = false := by
  have hd := spawnAssert_deliversOnce stage res
  rw [Goroutine.run_add, Nat.add_comm, spawnAssert_run_done]
  refine ⟨hd.1, hd.2.1, ?_⟩
  simp [Goroutine.holdsMutex, hd.1]

/-- A goroutine that is scheduled while the mutex is free, or while it holds
the mutex itself, takes its next action; afterwards the mutex is again free
or held by it, and no other goroutine has moved. -/
theorem System.step_free (s : System) (i : Nat)
    (hfree : s.locked = false ∨ (s.threads i).holdsMutex = true) :
    (s.step i).threads i = (s.threads i).step ∧
    ((s.step i).locked = false ∨ (s.threads i).step.holdsMutex = true) ∧
    ∀ j, j ≠ i → (s.step i).threads j = s.threads j := by
  obtain ⟨hlock, hunlock, hother⟩ := Goroutine.step_holdsMutex (s.threads i)
  have hunblocked : (s.threads i).pc = Pc.lock → s.locked = false := by
    intro hpc
    rcases hfree with h | h
    · exact h
    · rw [(hlock hpc).1] at h
      exact Bool.noConfusion h
  obtain ⟨hth, _, hlk⟩ := System.step_fields s i hunblocked
  rw [hth, hlk]
  refine ⟨Function.update_same _ _ _, ?_, fun j hj => Function.update_noteq hj _ _⟩
  by_cases hpl : (s.threads i).pc = Pc.lock
  · exact Or.inr (hlock hpl).2
  · by_cases hpu : (s.threads i).pc = Pc.unlock
    · left
      simp [hpl, hpu]
    · rcases hfree with h | h
      · left
        simp [hpl, hpu, h]
      · right
        rw [hother hpl hpu]
        exact h

theorem System.run_thread (s : System) (i m : Nat)
    (hfree : s.locked = false ∨ (s.threads i).holdsMutex = true) :
    (s.run (List.replicate m i)).threads i = (s.threads i).run m ∧
    ((s.run (List.replicate m i)).locked = false ∨ ((s.threads i).run m).holdsMutex = true) ∧
    ∀ j, j ≠ i → (s.run (List.replicate m i)).threads j = s.threads j := by
  induction m with
  | zero => exact ⟨rfl, hfree, fun _ _ => rfl⟩
  | succ m ih =>
    obtain ⟨h1, h2, h3⟩ := ih
    have hrun : s.run (List.replicate (m + 1) i) = (s.run (List.replicate m i)).step i := by
      rw [List.replicate_succ', System.run, List.foldl_append]
      rfl
    rw [hrun]
    obtain ⟨g1, g2, g3⟩ := System.step_free (s.run (List.replicate m i)) i (by rw [h1]; exact h2)
    rw [h1] at g1 g2
    refine ⟨g1, g2, ?_⟩
    intro j hj
    rw [g3 j hj, h3 j hj]

theorem System.run_schedule_append (s : System) (xs ys : List Nat) :
    s.run (xs ++ ys) = (s.run xs).run ys := by
  simp [System.run, List.foldl_append]

/-- From a state that satisfies the invariant, every goroutine can be brought
to its end: the holder of the mutex, if there is one, is run to its end,
which frees the mutex, and then the goroutine itself. -/
theorem System.Inv_progress (invocations : Nat → Goroutine)
    (hspawn : ∀ i, ∃ stage res, invocations i = spawnAssert stage res)
    (s : System) (h : System.Inv invocations s) (i : Nat) :
    ∃ more, ((s.run more).threads i).pc = Pc.done ∧
      ((s.run more).threads i).log = fullLog (invocations i).stage (invocations i).ledger ∧
      (s.run more).locked = false := by
  obtain ⟨_, _, h3, h4, _⟩ := h
  have hholder : ∃ j, s.locked = false ∨ (s.threads j).holdsMutex = true := by
    cases hl : s.locked
    · exact ⟨i, Or.inl rfl⟩
    · obtain ⟨j, hj⟩ := h3 hl
      exact ⟨j, Or.inr hj⟩
  obtain ⟨j, hj⟩ := hholder
  obtain ⟨a1, a2, a3⟩ := System.run_thread s j 7 hj
  obtain ⟨kj, hkj⟩ := h4 j
  obtain ⟨stj, rj, hsj⟩ := hspawn j
  have hjfin := spawnAssert_run_finish stj rj kj
  rw [← hsj, ← hkj] at hjfin
  have hfree1 : (s.run (List.replicate 7 j)).locked = false := by
    rcases a2 with h | h
    · exact h
    · rw [hjfin.2.2] at h
      exact Bool.noConfusion h
  obtain ⟨b1, b2, _⟩ :=
    System.run_thread (s.run (List.replicate 7 j)) i 7 (Or.inl hfree1)
  obtain ⟨ki, hki⟩ : ∃ k, (s.run (List.replicate 7 j)).threads i = (invocations i).run k := by
    by_cases hij : i = j
    · subst hij
      obtain ⟨k, hk⟩ := h4 i
      exact ⟨k + 7, by rw [a1, hk, Goroutine.run_add]⟩
    · rw [a3 i hij]
      exact h4 i
  obtain ⟨sti, ri, hsi⟩ := hspawn i
  have hifin := spawnAssert_run_finish sti ri ki
  rw [← hsi, ← hki, ← b1] at hifin
  refine ⟨List.replicate 7 j ++ List.replicate 7 i, ?_, ?_, ?_⟩
  · rw [System.run_schedule_append]
    exact hifin.1
  · rw [System.run_schedule_append, hifin.2.1, hsi]
    rfl
  · rw [System.run_schedule_append]
    rcases b2 with h | h
    · exact h
    · rw [← b1, hifin.2.2] at h
      exact Bool.noConfusion h

/-- C10: any number of concurrent invocations of the three operations under
one validator mutex (each with any arguments and any answer of the ledger),
under any interleaving of their actions.

* No two ledger calls overlap: in every reachable state at most one call is
  in flight, and in the common trace every ledger call is invoked only after
  the call invoked before it has returned.
* A goroutine whose call is in flight holds the locked mutex, having logged
  `lock` then `callStart` and nothing else.
* Every goroutine has logged a beginning of lock, call, return, send,
  unlock, close, close, and every goroutine can be run to its end from the
  state reached: it then has logged that whole sequence, for a failed and
  for a successful ledger call alike, and the mutex is free again. -/
theorem ledger_calls_serialized (invocations : Nat → Goroutine)
    (hinv : ∀ i, ∃ val newInboxHash assertion sequenceNum signatures,
      invocations i = FinalizedUnanimousAssert val newInboxHash assertion signatures ∨
      invocations i
        = PendingUnanimousAssert val newInboxHash assertion sequenceNum signatures ∨
      invocations i = ConfirmUnanimousAsserted val newInboxHash assertion)
    (schedule : List Nat) :
    (∀ i j, (((System.start invocations).run schedule).threads i).callInFlight = true →
      (((System.start invocations).run schedule).threads j).callInFlight = true → i = j) ∧
    (∀ i, (((System.start invocations).run schedule).threads i).callInFlight = true →
      ((System.start invocations).run schedule).locked = true ∧
      (((System.start invocations).run schedule).threads i).log
        = [Action.lock, Action.callStart]) ∧
    (∀ i, (((System.start invocations).run schedule).threads i).log <+:
      fullLog (invocations i).stage (invocations i).ledger) ∧
    callsSerial ((System.start invocations).run schedule).trace = true ∧
    (∀ i, ∃ more,
      (((System.start invocations).run (schedule ++ more)).threads i).pc = Pc.done ∧
      (((System.start invocations).run (schedule ++ more)).threads i).log
        = fullLog (invocations i).stage (invocations i).ledger ∧
      ((System.start invocations).run (schedule ++ more)).locked = false) := by
  have hspawn : ∀ i, ∃ stage res, invocations i = spawnAssert stage res := by
    intro i
    obtain ⟨val, hash, a, n, sigs, h | h | h⟩ := hinv i
    · exact ⟨_, _, h⟩
    · exact ⟨_, _, h⟩
    · exact ⟨_, _, h⟩
  have hstart : System.Inv invocations (System.start invocations) := by
    apply System.Inv_start
    intro i
    obtain ⟨stage, res, h⟩ := hspawn i
    rw [h]
    rfl
  have hreach := System.Inv_run invocations schedule _ hstart
  have hparts := hreach
  obtain ⟨h1, h2, _, h4, cur, hobs, _⟩ := hparts
  refine ⟨?_, ?_, ?_, ?_, ?_⟩
  · intro i j hi hj
    exact h2 i j (Goroutine.holdsMutex_of_callInFlight _ hi)
      (Goroutine.holdsMutex_of_callInFlight _ hj)
  · intro i hi
    refine ⟨h1 i (Goroutine.holdsMutex_of_callInFlight _ hi), ?_⟩
    obtain ⟨k, hk⟩ := h4 i
    obtain ⟨stage, res, h⟩ := hspawn i
    rw [hk, h] at hi ⊢
    exact (spawnAssert_run_log stage res k).2 hi
  · intro i
    obtain ⟨k, hk⟩ := h4 i
    obtain ⟨stage, res, h⟩ := hspawn i
    rw [hk, h]
    exact (spawnAssert_run_log stage res k).1
  · simp [callsSerial, hobs]
  · intro i
    obtain ⟨more, hm⟩ := System.Inv_progress invocations hspawn _ hreach i
    exact ⟨more, by rw [System.run_schedule_append]; exact hm⟩

/-- Witness of C10: finalize (which the ledger rejects), propose and confirm
invoked concurrently on the sample validator. Under the schedule 0, 0, 1, 2,
1 the finalize goroutine has locked the mutex and its ledger call is in
flight, while the other two are stopped at `Lock`. -/
theorem ledger_calls_serialized_witness :
    ((((System.start sampleInvocations).run [0, 0, 1, 2, 1]).threads 0).callInFlight = true ∧
      (((System.start sampleInvocations).run [0, 0, 1, 2, 1]).threads 1).pc = Pc.lock ∧
      (((System.start sampleInvocations).run [0, 0, 1, 2, 1]).threads 2).pc = Pc.lock ∧
      ((System.start sampleInvocations).run [0, 0, 1, 2, 1]).trace
        = [(0, Action.lock), (0, Action.callStart)]) ∧
    ((∀ i j,
      (((System.start sampleInvocations).run [0, 0, 1, 2, 1]).threads i).callInFlight = true →
      (((System.start sampleInvocations).run [0, 0, 1, 2, 1]).threads j).callInFlight = true →
        i = j) ∧
    (∀ i,
      (((System.start sampleInvocations).run [0, 0, 1, 2, 1]).threads i).callInFlight = true →
      ((System.start sampleInvocations).run [0, 0, 1, 2, 1]).locked = true ∧
      (((System.start sampleInvocations).run [0, 0, 1, 2, 1]).threads i).log
        = [Action.lock, Action.callStart]) ∧
    (∀ i, (((System.start sampleInvocations).run [0, 0, 1, 2, 1]).threads i).log <+:
      fullLog (sampleInvocations i).stage (sampleInvocations i).ledger) ∧
    callsSerial ((System.start sampleInvocations).run [0, 0, 1, 2, 1]).trace = true ∧
    (∀ i, ∃ more,
      (((System.start sampleInvocations).run ([0, 0, 1, 2, 1] ++ more)).threads i).pc
        = Pc.done ∧
      (((System.start sampleInvocations).run ([0, 0, 1, 2, 1] ++ more)).threads i).log
        = fullLog (sampleInvocations i).stage (sampleInvocations i).ledger ∧
      ((System.start sampleInvocations).run ([0, 0, 1, 2, 1] ++ more)).locked = false)) :=
  ⟨by decide,
    ledger_calls_serialized sampleInvocations
      (fun i => ⟨sampleValidator, 7, 9, 4, [], by
        match i with
        | 0 => exact Or.inl rfl
        | 1 => exact Or.inr (Or.inl rfl)
        | _ + 2 => exact Or.inr (Or.inr rfl)⟩)
      [0, 0, 1, 2, 1]⟩

/-- Two invocations run one after the other through a contended mutex: the
propose goroutine is scheduled while finalize is inside its ledger call and
does not move; its call is invoked only after the failed finalize call has
returned and finalize has unlocked. -/
theorem second_call_waits_for_first :
    ((System.start sampleInvocations).run [0, 0, 1, 1, 0, 0, 0, 1, 1, 1]).trace
      = [(0, Action.lock), (0, Action.callStart),
          (0, Action.callReturn ⟨none, some (GoError.new "nonce too low")⟩),
          (0, Action.sendErr (GoError.wrap (GoError.new "nonce too low")
            "failed sending finalized unanimous assertion")),
          (0, Action.unlock),
          (1, Action.lock), (1, Action.callStart),
          (1, Action.callReturn ⟨some 4, none⟩)] ∧
    callEvents ((System.start sampleInvocations).run [0, 0, 1, 1, 0, 0, 0, 1, 1, 1]).trace
      = [(0, Action.callStart),
          (0, Action.callReturn ⟨none, some (GoError.new "nonce too low")⟩),
          (1, Action.callStart), (1, Action.callReturn ⟨some 4, none⟩)] ∧
    callsSerial [(0, Action.callStart), (1, Action.callStart)] = false := by
  decide

/-! ## The broadcast client -/

theorem deliveredOf_append (a b : List ClientEvent) :
    deliveredOf (a ++ b) = deliveredOf a ++ deliveredOf b := by
  induction a with
  | nil => rfl
  | cons e a ih => cases e <;> simp [deliveredOf, ih]

theorem retryConnectsOf_append (a b : List ClientEvent) :
    retryConnectsOf (a ++ b) = retryConnectsOf a + retryConnectsOf b := by
  induction a with
  | nil => simp [retryConnectsOf]
  | cons e a ih => cases e <;> simp [retryConnectsOf, ih, Nat.add_right_comm]

theorem deliverAll_of_all_isSome (ms : List (Option BroadcastFeedMessage))
    (h : ms.all Option.isSome = true) :
    (deliverAll ms).2 = FrameEnd.next ∧
    deliveredOf (deliverAll ms).1 = ms.filterMap id ∧
    retryConnectsOf (deliverAll ms).1 = 0 := by
  induction ms with
  | nil => simp [deliverAll, deliveredOf, retryConnectsOf]
  | cons m ms ih =>
    cases m with
    | none => simp at h
    | some m =>
      have h' : ms.all Option.isSome = true := by simpa using h
      obtain ⟨h1, h2, h3⟩ := ih h'
      simp [deliverAll, deliveredOf, retryConnectsOf, h1, h2, h3]

/-- A frame without nil entries: the handling goes on to the next read, it
sends what the specification expects and it does not enter `RetryConnect`. -/
theorem handleFrame_of_noNilEntry (unmarshal : String → Option BroadcastMessage)
    (bc : BroadcastClient) (p : String) (h : noNilEntry unmarshal p = true) :
    (handleFrame unmarshal bc p).2 = FrameEnd.next ∧
    deliveredOf (handleFrame unmarshal bc p).1 = specFrameMessages unmarshal p ∧
    retryConnectsOf (handleFrame unmarshal bc p).1 = 0 := by
  unfold noNilEntry at h
  unfold handleFrame specFrameMessages
  cases hu : unmarshal p with
  | none => simp [deliveredOf, retryConnectsOf]
  | some res =>
    rw [hu] at h
    obtain ⟨ver, msgs, conf⟩ := res
    simp only at h ⊢
    obtain ⟨h1, h2, h3⟩ := deliverAll_of_all_isSome msgs h
    have key : deliverAll msgs = ((deliverAll msgs).1, FrameEnd.next) := by rw [← h1]
    cases msgs with
    | nil =>
      by_cases hv : ver = 1 <;>
        by_cases hc : (conf.IsConfirmed && bc.ConfirmedAccumulatorListener) = true <;>
        simp [hv, hc, deliverAll, deliveredOf, retryConnectsOf]
    | cons m ms =>
      cases m with
      | none => simp at h
      | some m =>
        dsimp only
        rw [key]
        generalize (deliverAll (some m :: ms)).1 = evs at h2 h3 ⊢
        by_cases hv : ver = 1 <;>
          by_cases hc : (conf.IsConfirmed && bc.ConfirmedAccumulatorListener) = true <;>
          simp [hv, hc, h2, h3, deliveredOf_append, retryConnectsOf_append, deliveredOf,
            retryConnectsOf]

theorem Client.run_append (unmarshal : String → Option BroadcastMessage) (s : Client)
    (xs ys : List Input) :
    Client.run unmarshal s (xs ++ ys) = Client.run unmarshal (Client.run unmarshal s xs) ys := by
  simp [Client.run, List.foldl_append]

theorem reader_frames (unmarshal : String → Option BroadcastMessage) (bc : BroadcastClient)
    (tr : List ClientEvent) (ps : List String)
    (hwf : ∀ p ∈ ps, noNilEntry unmarshal p = true) :
    ∃ evs, Client.run unmarshal ⟨bc, ClientPc.reading, tr⟩ (ps.map Input.frame)
        = ⟨bc, ClientPc.reading, tr ++ evs⟩ ∧
      deliveredOf evs = specDelivered unmarshal ps ∧ retryConnectsOf evs = 0 := by
  induction ps generalizing tr with
  | nil => exact ⟨[], by simp [Client.run], rfl, rfl⟩
  | cons p ps ih =>
    obtain ⟨h1, h2, h3⟩ := handleFrame_of_noNilEntry unmarshal bc p (hwf p (List.mem_cons_self _ _))
    obtain ⟨evs, hrun, hdel, hretry⟩ :=
      ih (tr ++ (handleFrame unmarshal bc p).1) (fun q hq => hwf q (List.mem_cons_of_mem _ hq))
    refine ⟨(handleFrame unmarshal bc p).1 ++ evs, ?_, ?_, ?_⟩
    · have hstep : Client.step unmarshal ⟨bc, ClientPc.reading, tr⟩ (Input.frame p)
          = ⟨bc, ClientPc.reading, tr ++ (handleFrame unmarshal bc p).1⟩ := by
        rcases hf : handleFrame unmarshal bc p with ⟨e, fin⟩
        rw [hf] at h1
        simp only at h1
        subst h1
        simp [Client.step, startBackgroundReader, hf]
      simp only [List.map_cons, Client.run, List.foldl_cons, hstep]
      simpa [Client.run, List.append_assoc] using hrun
    · simp [deliveredOf_append, h2, hdel, specDelivered]
    · simp [retryConnectsOf_append, h3, hretry]

/-- Ordering and skipping on frames without nil entries: for every sequence
of frames none of which has a nil entry in its `Messages` array, the decode
loop is still running after the last frame, the client object is unchanged,
the feed messages sent on the consumer channel are the concatenation, in
receipt order, of the `Messages` arrays of the frames that decode with
version 1, and `RetryConnect` was not entered. -/
theorem reader_delivers_in_order (unmarshal : String → Option BroadcastMessage)
    (bc : BroadcastClient) (tr : List ClientEvent) (ps : List String)
    (hwf : ∀ p ∈ ps, noNilEntry unmarshal p = true) :
    (Client.run unmarshal ⟨bc, ClientPc.reading, tr⟩ (ps.map Input.frame)).pc
      = ClientPc.reading ∧
    (Client.run unmarshal ⟨bc, ClientPc.reading, tr⟩ (ps.map Input.frame)).bc = bc ∧
    deliveredOf (Client.run unmarshal ⟨bc, ClientPc.reading, tr⟩ (ps.map Input.frame)).trace
      = deliveredOf tr ++ specDelivered unmarshal ps ∧
    retryConnectsOf (Client.run unmarshal ⟨bc, ClientPc.reading, tr⟩ (ps.map Input.frame)).trace
      = retryConnectsOf tr := by
  obtain ⟨evs, hrun, hdel, hretry⟩ := reader_frames unmarshal bc tr ps hwf
  rw [hrun]
  simp [deliveredOf_append, retryConnectsOf_append, hdel, hretry]

/-- An instance of the ordering: a malformed frame, then two version-1
frames with one message each. -/
theorem reader_delivers_in_order_sample :
    (Client.run sampleUnmarshal ⟨sampleClient, ClientPc.reading, []⟩
        (["not json", frameFive, frameSix].map Input.frame)).pc = ClientPc.reading ∧
    (Client.run sampleUnmarshal ⟨sampleClient, ClientPc.reading, []⟩
        (["not json", frameFive, frameSix].map Input.frame)).bc = sampleClient ∧
    deliveredOf (Client.run sampleUnmarshal ⟨sampleClient, ClientPc.reading, []⟩
        (["not json", frameFive, frameSix].map Input.frame)).trace
      = deliveredOf [] ++ specDelivered sampleUnmarshal ["not json", frameFive, frameSix] ∧
    retryConnectsOf (Client.run sampleUnmarshal ⟨sampleClient, ClientPc.reading, []⟩
        (["not json", frameFive, frameSix].map Input.frame)).trace = retryConnectsOf [] :=
  reader_delivers_in_order sampleUnmarshal sampleClient [] ["not json", frameFive, frameSix]
    (by decide)

/-- C4, the code at a frame of an unsupported version whose first entry is
null, followed by a version-1 frame with message 5: the first frame ends the
decode loop with a panic, so the second frame is never handled and nothing
is delivered, where the specification expects message 5. -/
theorem reader_stops_at_nil_entry :
    (Client.run sampleUnmarshal sampleReader
        [Input.frame nullFrameV2, Input.frame frameFive]).pc = ClientPc.panicked ∧
    deliveredOf (Client.run sampleUnmarshal sampleReader
        [Input.frame nullFrameV2, Input.frame frameFive]).trace = [] ∧
    specDelivered sampleUnmarshal [nullFrameV2, frameFive] = [⟨5, 0⟩] := by
  decide

/-- C6, the code at three frames with a null entry in `messages`: the
handling of the frame panics, at the debug log when the first entry is null
(whatever the version) and at the send when a later entry is null (after
the earlier messages were sent); the loop does not go on to the next read. -/
theorem nil_entry_panics_reader :
    handleFrame sampleUnmarshal sampleReader.bc nullFrame = ([], FrameEnd.panic) ∧
    handleFrame sampleUnmarshal sampleReader.bc nullFrameV2 = ([], FrameEnd.panic) ∧
    handleFrame sampleUnmarshal sampleReader.bc mixedFrame
      = ([ClientEvent.delivered ⟨5, 0⟩], FrameEnd.panic) ∧
    (Client.step sampleUnmarshal sampleReader (Input.frame nullFrame)).pc
      = ClientPc.panicked ∧
    (Client.run sampleUnmarshal sampleReader [Input.frame nullFrame, Input.frame frameFive]).pc
      = ClientPc.panicked := by
  decide

/-- Whatever the decoder, a decoded frame whose first `Messages` entry is nil
makes the handling panic. -/
theorem handleFrame_nil_head (unmarshal : String → Option BroadcastMessage)
    (bc : BroadcastClient) (p : String) (res : BroadcastMessage)
    (rest : List (Option BroadcastFeedMessage))
    (hu : unmarshal p = some res) (hm : res.Messages = none :: rest) :
    handleFrame unmarshal bc p = ([], FrameEnd.panic) := by
  obtain ⟨ver, msgs, conf⟩ := res
  simp only at hm
  subst hm
  simp [handleFrame, hu]

theorem dial_run (unmarshal : String → Option BroadcastMessage) (bc : BroadcastClient)
    (tr : List ClientEvent) (n : Nat) :
    Client.run unmarshal ⟨bc, ClientPc.dialWait, tr⟩ (dropThenDial n)
      = ⟨{ bc with conn := some 2 }, ClientPc.reading, tr ++ dialEvents n⟩ := by
  induction n generalizing tr with
  | zero => simp [Client.run, dropThenDial, dialEvents, Client.step, connectTask]
  | succ n ih =>
    have h2 : Client.run unmarshal ⟨bc, ClientPc.dialWait, tr⟩
        [Input.timerFired, Input.dialFail]
        = ⟨bc, ClientPc.dialWait, tr ++ [ClientEvent.timer 10000, ClientEvent.dialed false]⟩ := by
      simp [Client.run, Client.step, connectTask]
    rw [dropThenDial, Client.run_append, h2, ih]
    simp [dialEvents]

/-- From a read error, with an endpoint configured and no shutdown,
`RetryConnect` sleeps 500 ms, increments the retry counter once, calls
`connect` once and returns; all dials happen in the connect task, ten seconds
apart. -/
theorem retry_run (unmarshal : String → Option BroadcastMessage) (bc : BroadcastClient)
    (tr : List ClientEvent) (n : Nat)
    (hurl : bc.websocketUrl.length ≠ 0) (hsd : bc.shuttingDown = false) :
    Client.run unmarshal ⟨bc, ClientPc.reading, tr⟩ (retryInputs n)
      = ⟨{ bc with retrying := false, RetryCount := bc.RetryCount + 1, conn := some 2 },
          ClientPc.reading,
          tr ++ ([ClientEvent.connClosed, ClientEvent.retryConnect, ClientEvent.slept 500,
            ClientEvent.connectCalled] ++ dialEvents n)⟩ := by
  have h3 : Client.run unmarshal ⟨bc, ClientPc.reading, tr⟩
      [Input.readErr, Input.tau, Input.timerFired]
      = ⟨{ bc with retrying := false, RetryCount := bc.RetryCount + 1 }, ClientPc.dialWait,
          tr ++ [ClientEvent.connClosed, ClientEvent.retryConnect, ClientEvent.slept 500,
            ClientEvent.connectCalled]⟩ := by
    simp [Client.run, Client.step, startBackgroundReader, RetryConnect, connect, hurl, hsd]
  rw [retryInputs, Client.run_append, h3, dial_run]
  simp

theorem deliveredOf_dialEvents (n : Nat) : deliveredOf (dialEvents n) = [] := by
  induction n with
  | zero => rfl
  | succ n ih => simpa [dialEvents, deliveredOf] using ih

theorem waitsBeforeDials_dialEvents (n acc : Nat) :
    waitsBeforeDials (dialEvents n) acc = (acc + 10000) :: List.replicate n 10000 := by
  induction n generalizing acc with
  | zero => simp [dialEvents, waitsBeforeDials]
  | succ n ih => simp [dialEvents, waitsBeforeDials, ih, List.replicate_succ]

theorem connectCallsOf_dialEvents (n : Nat) : connectCallsOf (dialEvents n) = 0 := by
  induction n with
  | zero => rfl
  | succ n ih => simpa [dialEvents, connectCallsOf] using ih

/-- No input ever changes `lastInboxSeqNum`. -/
theorem lastInboxSeqNum_step (unmarshal : String → Option BroadcastMessage) (s : Client)
    (i : Input) : (Client.step unmarshal s i).bc.lastInboxSeqNum = s.bc.lastInboxSeqNum := by
  obtain ⟨bc, pc, tr⟩ := s
  cases i <;> cases pc <;>
    simp [Client.step, Close, connectTask, startBackgroundReader, RetryConnect]
  all_goals (repeat' split) <;> simp

theorem lastInboxSeqNum_run (unmarshal : String → Option BroadcastMessage) (s : Client)
    (inputs : List Input) :
    (Client.run unmarshal s inputs).bc.lastInboxSeqNum = s.bc.lastInboxSeqNum := by
  induction inputs generalizing s with
  | nil => rfl
  | cons i rest ih =>
    have := ih (Client.step unmarshal s i)
    simpa [Client.run, lastInboxSeqNum_step] using this

/-- C5 as amended: across a reconnect the client delivers what the feed
sends and nothing else decides. With an endpoint configured, no shutdown and
frames without nil entries, after frames `ps`, a read error, a reconnection
after any number of failed dials, and frames `qs` on the new connection, the
messages delivered are those of `ps` followed by those of `qs`, whatever
their sequence numbers; and no run of the client ever changes
`lastInboxSeqNum`. -/
theorem reconnect_delivers_feed_verbatim (unmarshal : String → Option BroadcastMessage)
    (bc : BroadcastClient) (tr : List ClientEvent) (n : Nat) (ps qs : List String)
    (hurl : bc.websocketUrl.length ≠ 0) (hsd : bc.shuttingDown = false)
    (hps : ∀ p ∈ ps, noNilEntry unmarshal p = true)
    (hqs : ∀ q ∈ qs, noNilEntry unmarshal q = true) :
    (Client.run unmarshal ⟨bc, ClientPc.reading, tr⟩
        (ps.map Input.frame ++ retryInputs n ++ qs.map Input.frame)).pc = ClientPc.reading ∧
    deliveredOf (Client.run unmarshal ⟨bc, ClientPc.reading, tr⟩
        (ps.map Input.frame ++ retryInputs n ++ qs.map Input.frame)).trace
      = deliveredOf tr ++ specDelivered unmarshal ps ++ specDelivered unmarshal qs ∧
    (∀ (s : Client) (inputs : List Input),
      (Client.run unmarshal s inputs).bc.lastInboxSeqNum = s.bc.lastInboxSeqNum) := by
  obtain ⟨evs, hrun, hdel, _⟩ := reader_frames unmarshal bc tr ps hps
  obtain ⟨evs', hrun', hdel', _⟩ := reader_frames unmarshal
    { bc with retrying := false, RetryCount := bc.RetryCount + 1, conn := some 2 }
    ((tr ++ evs) ++ ([ClientEvent.connClosed, ClientEvent.retryConnect, ClientEvent.slept 500,
            ClientEvent.connectCalled] ++ dialEvents n)) qs hqs
  rw [Client.run_append, Client.run_append, hrun, retry_run unmarshal bc (tr ++ evs) n hurl hsd,
    hrun']
  refine ⟨rfl, ?_, lastInboxSeqNum_run unmarshal⟩
  simp [deliveredOf_append, deliveredOf_dialEvents, deliveredOf, hdel, hdel']

/-- Witness of C5: the sample client delivers message 5, loses the
connection, reconnects at the second dial and is sent message 6. -/
theorem reconnect_delivers_feed_verbatim_witness :
    (Client.run sampleUnmarshal ⟨sampleClient, ClientPc.reading, []⟩
        ([frameFive].map Input.frame ++ retryInputs 1 ++ [frameSix].map Input.frame)).pc
      = ClientPc.reading ∧
    deliveredOf (Client.run sampleUnmarshal ⟨sampleClient, ClientPc.reading, []⟩
        ([frameFive].map Input.frame ++ retryInputs 1 ++ [frameSix].map Input.frame)).trace
      = deliveredOf [] ++ specDelivered sampleUnmarshal [frameFive]
          ++ specDelivered sampleUnmarshal [frameSix] ∧
    (∀ (s : Client) (inputs : List Input),
      (Client.run sampleUnmarshal s inputs).bc.lastInboxSeqNum = s.bc.lastInboxSeqNum) :=
  reconnect_delivers_feed_verbatim sampleUnmarshal sampleClient [] 1 [frameFive] [frameSix]
    (by decide) (by decide) (by decide) (by decide)

/-- C5 as stated fails: message 5 is delivered, the read fails, the client
reconnects, the feed sends the envelope with message 5 again, and the fresh
decode loop delivers it a second time; `lastInboxSeqNum` is still the value
given at construction. -/
theorem reconnect_delivers_duplicate :
    deliveredOf (Client.run sampleUnmarshal sampleReader [Input.frame frameFive]).trace
      = [⟨5, 0⟩] ∧
    (Client.run sampleUnmarshal sampleReader
        ([Input.frame frameFive] ++ retryInputs 0)).pc = ClientPc.reading ∧
    deliveredOf (Client.run sampleUnmarshal sampleReader
        ([Input.frame frameFive] ++ retryInputs 0 ++ [Input.frame frameFive])).trace
      = [⟨5, 0⟩, ⟨5, 0⟩] ∧
    (Client.run sampleUnmarshal sampleReader
        ([Input.frame frameFive] ++ retryInputs 0 ++ [Input.frame frameFive])).bc.lastInboxSeqNum
      = 0 := by
  decide

/-- C7, the code on a run with `n` consecutive failed dials and no
shutdown: the wait before the first dial is 500 ms of `RetryConnect` plus the
ten seconds of the connect task, the wait before every later dial is ten
seconds, `RetryCount` is incremented once and `connect` is called once,
however many dials there are. This is not the schedule
`min(500 + 500*(k-1), 15000)` with one increment per attempt. -/
theorem retry_waits_fixed_interval (n : Nat) :
    (afterRetry n).pc = ClientPc.reading ∧
    (afterRetry n).bc.retrying = false ∧
    waitsBeforeDials (afterRetry n).trace 0 = 10500 :: List.replicate n 10000 ∧
    (afterRetry n).bc.RetryCount = 1 ∧
    connectCallsOf (afterRetry n).trace = 1 ∧
    waitsBeforeDials (afterRetry n).trace 0
      ≠ (List.range (n + 1)).map (fun k => specWait (k + 1)) := by
  have hrun : afterRetry n = _ :=
    retry_run sampleUnmarshal sampleReader.bc [] n (by decide) (by decide)
  have hw : waitsBeforeDials (afterRetry n).trace 0 = 10500 :: List.replicate n 10000 := by
    rw [hrun]
    simp [waitsBeforeDials, waitsBeforeDials_dialEvents]
  refine ⟨by rw [hrun], by rw [hrun], hw, by rw [hrun]; rfl, ?_, ?_⟩
  · rw [hrun]
    simp [connectCallsOf, connectCallsOf_dialEvents]
  · rw [hw, List.range_succ_eq_map]
    intro h
    have h1 : (10500 : Nat) = specWait 1 := by simpa using (List.cons.inj h).1
    exact absurd h1 (by decide)

/-- The schedule of section 8 starts 500, 1000, 1500 and is capped at
15000 from the thirtieth attempt on. -/
theorem specWait_values :
    specWait 1 = 500 ∧ specWait 2 = 1000 ∧ specWait 3 = 1500 ∧ specWait 30 = 15000 ∧
    specWait 31 = 15000 := by
  decide

/-- A read error seen after `Close` ends the decode loop without entering
`RetryConnect`. -/
theorem read_error_after_close (unmarshal : String → Option BroadcastMessage)
    (bc : BroadcastClient) (tr : List ClientEvent) (h : bc.shuttingDown = true) :
    Client.step unmarshal ⟨bc, ClientPc.reading, tr⟩ Input.readErr
      = ⟨bc, ClientPc.stopped, tr⟩ := by
  simp [Client.step, startBackgroundReader, h]

/-- A `RetryConnect` loop that is at its loop condition after `Close`
returns without sleeping, counting or connecting. -/
theorem retry_head_after_close (unmarshal : String → Option BroadcastMessage)
    (bc : BroadcastClient) (tr : List ClientEvent) (w : Nat) (h : bc.shuttingDown = true) :
    Client.step unmarshal ⟨bc, ClientPc.retryHead w, tr⟩ Input.tau
      = ⟨bc, ClientPc.stopped, tr⟩ := by
  simp [Client.step, RetryConnect, h]

/-- C8, the code when `Close` is called while `RetryConnect` is in its
backoff sleep: after the sleep the loop does not look at the flag again, it
increments `RetryCount`, calls `connect` and returns; the connect task it
started then dials, and on success a new decode loop runs, all after
`Close`. -/
theorem close_during_sleep_reconnects :
    (Client.run sampleUnmarshal sampleReader [Input.readErr, Input.tau]).pc
      = ClientPc.retrySleep 500 ∧
    (Client.run sampleUnmarshal sampleReader [Input.readErr, Input.tau]).bc.RetryCount = 0 ∧
    Client.run sampleUnmarshal sampleReader
        [Input.readErr, Input.tau, Input.close, Input.timerFired]
      = ⟨{ sampleReader.bc with shuttingDown := true, RetryCount := 1 }, ClientPc.dialWait,
          [ClientEvent.connClosed, ClientEvent.retryConnect, ClientEvent.closeCalled,
            ClientEvent.connClosed, ClientEvent.slept 500, ClientEvent.connectCalled]⟩ ∧
    Client.run sampleUnmarshal sampleReader
        [Input.readErr, Input.tau, Input.close, Input.timerFired, Input.timerFired,
          Input.dialOk 2, Input.frame frameFive]
      = ⟨{ sampleReader.bc with shuttingDown := true, RetryCount := 1, conn := some 2 },
          ClientPc.reading,
          [ClientEvent.connClosed, ClientEvent.retryConnect, ClientEvent.closeCalled,
            ClientEvent.connClosed, ClientEvent.slept 500, ClientEvent.connectCalled,
            ClientEvent.timer 10000, ClientEvent.dialed true,
            ClientEvent.delivered ⟨5, 0⟩]⟩ := by
  decide

end Arbitrum
